import Mathlib

/-!
# Supply-chain chaincode: public asset ledger and private deal ledger

A shallow embedding of `chaincode/sc/sc_chaincode.go` and
`chaincode/sc_private/go/sc_private.go`.

* Go strings and byte slices are Lean `String`s (well-formed UTF-8 text).
* Go `int` is the 64-bit signed range, carried by the subtype `GoInt`.
* `encoding/json` is modelled by an encoder producing the text Go emits for
  the three record types and by a decoder for JSON text (syntax phase into
  `JValue`, then a store phase into the record).
* The ledger stub is a key/value store with a history log, a restricted
  collection and a table of failing read calls.
-/

namespace SupplyChain

/-! ## Go machine integers -/

/-- Smallest value of a Go `int` on a 64-bit target. -/
def minInt : Int := -9223372036854775808

/-- Largest value of a Go `int` on a 64-bit target. -/
def maxInt : Int := 9223372036854775807

/-- A Go `int`: an integer inside the 64-bit signed range. -/
abbrev GoInt := { n : Int // minInt ≤ n ∧ n ≤ maxInt }

/-- The Go zero value of `int`. -/
def GoInt.zero : GoInt := ⟨0, by decide⟩

/-! ## Characters of JSON text, by code point -/

/-- The double quote, U+0022. -/
def dquote : Char := Char.ofNat 34

/-- The reverse solidus, U+005C. -/
def rsolidus : Char := Char.ofNat 92

/-- The opening brace, U+007B. -/
def lbrace : Char := Char.ofNat 123

/-- The closing brace, U+007D. -/
def rbrace : Char := Char.ofNat 125

/-- The opening square bracket, U+005B. -/
def lbracket : Char := Char.ofNat 91

/-- The closing square bracket, U+005D. -/
def rbracket : Char := Char.ofNat 93

/-- The replacement character U+FFFD. -/
def replacementChar : Char := Char.ofNat 65533

/-! ## Encoder: `json.Marshal` on the record types -/

/-- One lowercase hexadecimal digit (`hex` table of `encoding/json`). -/
def hexDigit (n : Nat) : Char :=
  if n < 10 then Char.ofNat (48 + n) else Char.ofNat (87 + n)

/-- The text `encoding/json` writes for one character of a string value
(HTML escaping on, as `json.Marshal` does): `"` and `\` get a reverse
solidus, newline, carriage return and tab their short escape, the other
control characters and `<`, `>`, `&` the form `\u00XX`, U+2028 and U+2029
the form `\u202X`, every other character itself. -/
def escapeChar (c : Char) : List Char :=
  let n := c.toNat
  if n = 34 ∨ n = 92 then [rsolidus, c]
  else if n = 10 then [rsolidus, 'n']
  else if n = 13 then [rsolidus, 'r']
  else if n = 9 then [rsolidus, 't']
  else if n < 32 ∨ n = 60 ∨ n = 62 ∨ n = 38 then
    [rsolidus, 'u', '0', '0', hexDigit (n / 16), hexDigit (n % 16)]
  else if n = 8232 then [rsolidus, 'u', '2', '0', '2', '8']
  else if n = 8233 then [rsolidus, 'u', '2', '0', '2', '9']
  else [c]

/-- The escaped body of a string value. -/
def escapeString : List Char → List Char
  | [] => []
  | c :: cs => escapeChar c ++ escapeString cs

/-- A quoted JSON string. -/
def quoteString (s : String) : List Char :=
  dquote :: (escapeString s.data ++ [dquote])

/-- Decimal digits of a natural number, most significant first; `fuel`
bounds the number of digits. -/
def decDigits : Nat → Nat → List Char
  | 0, _ => []
  | fuel + 1, n =>
    if n < 10 then [Char.ofNat (48 + n)]
    else decDigits fuel (n / 10) ++ [Char.ofNat (48 + n % 10)]

/-- Decimal text of a natural number (`strconv.FormatUint`, base 10). -/
def formatNat (n : Nat) : List Char := decDigits (n + 1) n

/-- Decimal text of an integer (`strconv.AppendInt`, base 10). -/
def formatInt (i : Int) : List Char :=
  if i < 0 then '-' :: formatNat i.natAbs else formatNat i.toNat

/-! ## Decoder, syntax phase: JSON text to a value tree -/

/-- A parsed JSON value; a number keeps its literal text. -/
inductive JValue where
  | null : JValue
  | bool (b : Bool) : JValue
  | num (lit : List Char) : JValue
  | str (s : List Char) : JValue
  | arr (elems : List JValue) : JValue
  | obj (members : List (List Char × JValue)) : JValue

/-- The two failures of `json.Unmarshal` on these record types. -/
inductive JsonError where
  | syntaxError : JsonError
  | typeError : JsonError
  deriving DecidableEq, Repr

/-- JSON white space: space, tab, line feed, carriage return. -/
def isSpace (c : Char) : Bool :=
  c.toNat = 32 || c.toNat = 9 || c.toNat = 10 || c.toNat = 13

/-- Drop leading white space. -/
def skipSpace : List Char → List Char
  | [] => []
  | c :: cs => if isSpace c then skipSpace cs else c :: cs

/-- Decimal digit test. -/
def isDigit (c : Char) : Bool := 48 ≤ c.toNat && c.toNat ≤ 57

/-- Value of one hexadecimal digit, either case. -/
def hexVal (c : Char) : Option Nat :=
  let n := c.toNat
  if 48 ≤ n ∧ n ≤ 57 then some (n - 48)
  else if 97 ≤ n ∧ n ≤ 102 then some (n - 87)
  else if 65 ≤ n ∧ n ≤ 70 then some (n - 55)
  else none

/-- Value of four hexadecimal digits (`getu4`). -/
def hex4 (a b c d : Char) : Option Nat :=
  match hexVal a, hexVal b, hexVal c, hexVal d with
  | some x, some y, some z, some w => some (((x * 16 + y) * 16 + z) * 16 + w)
  | _, _, _, _ => none

/-- The character named by a one-letter escape. -/
def shortEscape (e : Char) : Option Char :=
  let n := e.toNat
  if n = 34 ∨ n = 92 ∨ n = 47 then some e
  else if e = 'b' then some (Char.ofNat 8)
  else if e = 'f' then some (Char.ofNat 12)
  else if e = 'n' then some (Char.ofNat 10)
  else if e = 'r' then some (Char.ofNat 13)
  else if e = 't' then some (Char.ofNat 9)
  else none

/-- The low half of a surrogate pair when the text starts with `\uXXXX`
naming one (`getu4` on the text after a high surrogate). -/
def lowSurrogate : List Char → Option (Nat × List Char)
  | b :: u :: g1 :: g2 :: g3 :: g4 :: rest =>
    if b = rsolidus ∧ u = 'u' then
      match hex4 g1 g2 g3 g4 with
      | some m => if 56320 ≤ m ∧ m < 57344 then some (m, rest) else none
      | none => none
    else none
  | _ => none

/-- One item of a string body: a plain character or an escape, with the
text after it. `none` is a syntax error. A high surrogate followed by a low
one is the pair, any other surrogate is U+FFFD. -/
def stringItem : List Char → Option (Char × List Char)
  | [] => none
  | c :: cs =>
    if c = rsolidus then
      match cs with
      | [] => none
      | e :: cs1 =>
        if e = 'u' then
          match cs1 with
          | h1 :: h2 :: h3 :: h4 :: rest =>
            match hex4 h1 h2 h3 h4 with
            | none => none
            | some n =>
              if 55296 ≤ n ∧ n < 56320 then
                match lowSurrogate rest with
                | some (m, rest2) =>
                  some (Char.ofNat ((n - 55296) * 1024 + (m - 56320) + 65536), rest2)
                | none => some (replacementChar, rest)
              else if 56320 ≤ n ∧ n < 57344 then some (replacementChar, rest)
              else some (Char.ofNat n, rest)
          | _ => none
        else
          match shortEscape e with
          | some ch => some (ch, cs1)
          | none => none
    else if c.toNat < 32 then none
    else some (c, cs)

/-- The body of a string up to its closing quote, unquoted, and the text
after the quote. -/
def scanString : Nat → List Char → Option (List Char × List Char)
  | 0, _ => none
  | _ + 1, [] => none
  | fuel + 1, c :: cs =>
    if c = dquote then some ([], cs)
    else
      match stringItem (c :: cs) with
      | none => none
      | some (ch, rest) =>
        match scanString fuel rest with
        | none => none
        | some (s, rest2) => some (ch :: s, rest2)

/-- The longest run of digits at the head of the text. -/
def takeDigits : List Char → List Char × List Char
  | [] => ([], [])
  | c :: cs =>
    if isDigit c then ((c :: (takeDigits cs).1), (takeDigits cs).2)
    else ([], c :: cs)

/-- Integer part of a number: `0` or a digit 1-9 and more digits. -/
def scanIntPart : List Char → Option (List Char × List Char)
  | [] => none
  | c :: cs =>
    if c = '0' then some ([c], cs)
    else if isDigit c then some (c :: (takeDigits cs).1, (takeDigits cs).2)
    else none

/-- Optional fraction: a point and at least one digit. -/
def scanFrac : List Char → Option (List Char × List Char)
  | [] => some ([], [])
  | c :: cs =>
    if c = '.' then
      match takeDigits cs with
      | ([], _) => none
      | (d, rest) => some (c :: d, rest)
    else some ([], c :: cs)

/-- Optional exponent: `e` or `E`, an optional sign, at least one digit. -/
def scanExp : List Char → Option (List Char × List Char)
  | [] => some ([], [])
  | c :: cs =>
    if c = 'e' ∨ c = 'E' then
      match cs with
      | [] => none
      | s :: cs1 =>
        if s = '+' ∨ s = '-' then
          match takeDigits cs1 with
          | ([], _) => none
          | (d, rest) => some (c :: s :: d, rest)
        else
          match takeDigits (s :: cs1) with
          | ([], _) => none
          | (d, rest) => some (c :: d, rest)
    else some ([], c :: cs)

/-- A number literal and the text after it. -/
def scanNumber (cs : List Char) : Option (List Char × List Char) :=
  let signed : List Char × List Char :=
    match cs with
    | c :: rest => if c = '-' then ([c], rest) else ([], cs)
    | [] => ([], [])
  match scanIntPart signed.2 with
  | none => none
  | some (ip, r1) =>
    match scanFrac r1 with
    | none => none
    | some (fp, r2) =>
      match scanExp r2 with
      | none => none
      | some (ep, r3) => some (signed.1 ++ ip ++ fp ++ ep, r3)

/-- Strip the given word from the head of the text. -/
def stripWord : List Char → List Char → Option (List Char)
  | [], cs => some cs
  | _ :: _, [] => none
  | w :: ws, c :: cs => if w = c then stripWord ws cs else none

/-- Greatest nesting of arrays and objects the decoder accepts. -/
def maxNestingDepth : Nat := 10000

mutual
/-- One JSON value at the head of the text; `depth` is the nesting still
allowed. -/
def parseValue : Nat → Nat → List Char → Option (JValue × List Char)
  | 0, _, _ => none
  | _ + 1, _, [] => none
  | fuel + 1, depth, c :: cs =>
    if c = lbrace then
      if depth = 0 then none
      else
        match skipSpace cs with
        | [] => none
        | d :: rest =>
          if d = rbrace then some (JValue.obj [], rest)
          else
            match parseMembers fuel (depth - 1) (d :: rest) with
            | none => none
            | some (ms, rest2) => some (JValue.obj ms, rest2)
    else if c = lbracket then
      if depth = 0 then none
      else
        match skipSpace cs with
        | [] => none
        | d :: rest =>
          if d = rbracket then some (JValue.arr [], rest)
          else
            match parseElems fuel (depth - 1) (d :: rest) with
            | none => none
            | some (es, rest2) => some (JValue.arr es, rest2)
    else if c = dquote then
      match scanString (cs.length) cs with
      | none => none
      | some (s, rest) => some (JValue.str s, rest)
    else if c = '-' ∨ isDigit c then
      match scanNumber (c :: cs) with
      | none => none
      | some (lit, rest) => some (JValue.num lit, rest)
    else if c = 't' then
      match stripWord ['r', 'u', 'e'] cs with
      | none => none
      | some rest => some (JValue.bool true, rest)
    else if c = 'f' then
      match stripWord ['a', 'l', 's', 'e'] cs with
      | none => none
      | some rest => some (JValue.bool false, rest)
    else if c = 'n' then
      match stripWord ['u', 'l', 'l'] cs with
      | none => none
      | some rest => some (JValue.null, rest)
    else none
/-- The members of an object from the first key up to and including the
closing brace. -/
def parseMembers : Nat → Nat → List Char →
    Option (List (List Char × JValue) × List Char)
  | 0, _, _ => none
  | _ + 1, _, [] => none
  | fuel + 1, depth, q :: cs =>
    if q = dquote then
      match scanString (cs.length) cs with
      | none => none
      | some (key, r1) =>
        match skipSpace r1 with
        | [] => none
        | colon :: r2 =>
          if colon = ':' then
            match parseValue fuel depth (skipSpace r2) with
            | none => none
            | some (v, r3) =>
              match skipSpace r3 with
              | [] => none
              | e :: r4 =>
                if e = ',' then
                  match parseMembers fuel depth (skipSpace r4) with
                  | none => none
                  | some (ms, r5) => some ((key, v) :: ms, r5)
                else if e = rbrace then some ([(key, v)], r4)
                else none
          else none
    else none
/-- The elements of an array from the first one up to and including the
closing bracket. -/
def parseElems : Nat → Nat → List Char → Option (List JValue × List Char)
  | 0, _, _ => none
  | fuel + 1, depth, cs =>
    match parseValue fuel depth cs with
    | none => none
    | some (v, r1) =>
      match skipSpace r1 with
      | [] => none
      | e :: r2 =>
        if e = ',' then
          match parseElems fuel depth (skipSpace r2) with
          | none => none
          | some (es, r3) => some (v :: es, r3)
        else if e = rbracket then some ([v], r2)
        else none
end

/-- The syntax phase of `json.Unmarshal`: the whole text is one JSON value
between optional white space. -/
def decodeJSON (data : String) : Except JsonError JValue :=
  match parseValue (data.data.length + 1) maxNestingDepth (skipSpace data.data) with
  | none => Except.error JsonError.syntaxError
  | some (v, rest) =>
    if skipSpace rest = [] then Except.ok v else Except.error JsonError.syntaxError

/-! ## Decoder, store phase: a value tree into a record -/

/-- Value of a run of decimal digits, `none` when a character is no digit. -/
def digitsValue : List Char → Nat → Option Nat
  | [], acc => some acc
  | c :: cs, acc =>
    if isDigit c then digitsValue cs (acc * 10 + (c.toNat - 48)) else none

/-- The integer a number literal denotes (`strconv.ParseInt`, base 10):
an optional minus sign and at least one digit. -/
def parseInt (lit : List Char) : Option Int :=
  match lit with
  | [] => none
  | c :: cs =>
    if c = '-' then
      match cs with
      | [] => none
      | _ :: _ =>
        match digitsValue cs 0 with
        | some n => some (-(n : Int))
        | none => none
    else
      match digitsValue (c :: cs) 0 with
      | some n => some (n : Int)
      | none => none

/-- A number literal as a Go `int`: it must be an integer literal inside the
64-bit range. -/
def parseGoInt (lit : List Char) : Option GoInt :=
  match parseInt lit with
  | none => none
  | some v => if h : minInt ≤ v ∧ v ≤ maxInt then some ⟨v, h⟩ else none

/-- Store a JSON value into a `string` field: a string sets it, `null`
leaves it, anything else is a type error. -/
def storeString (v : JValue) (old : String) : Except JsonError String :=
  match v with
  | JValue.str s => Except.ok (String.mk s)
  | JValue.null => Except.ok old
  | _ => Except.error JsonError.typeError

/-- Store a JSON value into an `int` field: an in-range integer literal sets
it, `null` leaves it, anything else is a type error. -/
def storeInt (v : JValue) (old : GoInt) : Except JsonError GoInt :=
  match v with
  | JValue.num lit =>
    match parseGoInt lit with
    | some n => Except.ok n
    | none => Except.error JsonError.typeError
  | JValue.null => Except.ok old
  | _ => Except.error JsonError.typeError

/-- Case folding of object keys: ASCII letters fold to lower case, U+017F
folds to `s` and U+212A to `k`. -/
def foldChar (c : Char) : Char :=
  if 65 ≤ c.toNat ∧ c.toNat ≤ 90 then Char.ofNat (c.toNat + 32)
  else if c.toNat = 383 then 's'
  else if c.toNat = 8490 then 'k'
  else c

/-- An object key names a field when the two agree up to case folding. -/
def keyMatches (key : List Char) (name : String) : Bool :=
  key.map foldChar = name.data.map foldChar

/-- Store the members of an object one after the other, last one wins;
the first type error ends the decoding. -/
def storeMembers {α : Type} (store : α → List Char → JValue → Except JsonError α) :
    List (List Char × JValue) → α → Except JsonError α
  | [], a => Except.ok a
  | (k, v) :: ms, a =>
    match store a k v with
    | Except.error e => Except.error e
    | Except.ok b => storeMembers store ms b

/-- The shape of `json.Unmarshal` into a zero-valued struct: `null` leaves
the zero value, an object stores its members, any other value is a type
error, malformed text a syntax error. -/
def unmarshalWith {α : Type} (zero : α)
    (store : α → List Char → JValue → Except JsonError α) (data : String) :
    Except JsonError α :=
  match decodeJSON data with
  | Except.error e => Except.error e
  | Except.ok v =>
    match v with
    | JValue.null => Except.ok zero
    | JValue.obj ms => storeMembers store ms zero
    | _ => Except.error JsonError.typeError

/-- The text written before a field value: the quoted name and a colon. -/
def fieldName (name : String) : List Char :=
  dquote :: (name.data ++ [dquote, ':'])

/-! ## The record types -/

/-- The public record, `type Asset struct` of sc_chaincode.go. -/
structure Asset where
  AssetName : String
  AssetProperty : String
  Owner : String
  AssetProcessInfo : String
  AssetOriginalPrice : GoInt
  AssetProcessPrice : GoInt
  deriving DecidableEq

/-- The private record, `type PrivateAsset struct` of sc_private.go. -/
structure PrivateAsset where
  ObjectType : String
  AssetName : String
  AssetProperty : String
  Owner : String
  Price : GoInt
  deriving DecidableEq

/-- The transient input, `type scassetTransientInput struct` local to
`PrivateDeal`. -/
structure scassetTransientInput where
  AssetName : String
  AssetProperty : String
  Owner : String
  Price : GoInt
  deriving DecidableEq

/-- Go zero value of `Asset`. -/
def Asset.zero : Asset :=
  { AssetName := "", AssetProperty := "", Owner := "", AssetProcessInfo := "",
    AssetOriginalPrice := GoInt.zero, AssetProcessPrice := GoInt.zero }

/-- Go zero value of `PrivateAsset`. -/
def PrivateAsset.zero : PrivateAsset :=
  { ObjectType := "", AssetName := "", AssetProperty := "", Owner := "",
    Price := GoInt.zero }

/-- Go zero value of `scassetTransientInput`. -/
def scassetTransientInput.zero : scassetTransientInput :=
  { AssetName := "", AssetProperty := "", Owner := "", Price := GoInt.zero }

/-- `json.Marshal` of an `Asset`: the fields in declaration order under
their `json` tags. -/
def marshalAsset (a : Asset) : String :=
  String.mk (lbrace ::
    (fieldName "assetname" ++ quoteString a.AssetName ++ [','] ++
     fieldName "assetproperty" ++ quoteString a.AssetProperty ++ [','] ++
     fieldName "owner" ++ quoteString a.Owner ++ [','] ++
     fieldName "assetprocessinfo" ++ quoteString a.AssetProcessInfo ++ [','] ++
     fieldName "assetoriginalprice" ++ formatInt a.AssetOriginalPrice.val ++ [','] ++
     fieldName "assetprocessprice" ++ formatInt a.AssetProcessPrice.val ++ [rbrace]))

/-- `json.Marshal` of a `PrivateAsset`. -/
def marshalPrivateAsset (a : PrivateAsset) : String :=
  String.mk (lbrace ::
    (fieldName "docType" ++ quoteString a.ObjectType ++ [','] ++
     fieldName "assetname" ++ quoteString a.AssetName ++ [','] ++
     fieldName "assetproperty" ++ quoteString a.AssetProperty ++ [','] ++
     fieldName "owner" ++ quoteString a.Owner ++ [','] ++
     fieldName "price" ++ formatInt a.Price.val ++ [rbrace]))

/-- Store one object member into an `Asset`; an unknown key is skipped. -/
def Asset.store (a : Asset) (key : List Char) (v : JValue) : Except JsonError Asset :=
  if keyMatches key "assetname" then
    (storeString v a.AssetName).map (fun s => { a with AssetName := s })
  else if keyMatches key "assetproperty" then
    (storeString v a.AssetProperty).map (fun s => { a with AssetProperty := s })
  else if keyMatches key "owner" then
    (storeString v a.Owner).map (fun s => { a with Owner := s })
  else if keyMatches key "assetprocessinfo" then
    (storeString v a.AssetProcessInfo).map (fun s => { a with AssetProcessInfo := s })
  else if keyMatches key "assetoriginalprice" then
    (storeInt v a.AssetOriginalPrice).map (fun n => { a with AssetOriginalPrice := n })
  else if keyMatches key "assetprocessprice" then
    (storeInt v a.AssetProcessPrice).map (fun n => { a with AssetProcessPrice := n })
  else Except.ok a

/-- Store one object member into a `PrivateAsset`. -/
def PrivateAsset.store (a : PrivateAsset) (key : List Char) (v : JValue) :
    Except JsonError PrivateAsset :=
  if keyMatches key "docType" then
    (storeString v a.ObjectType).map (fun s => { a with ObjectType := s })
  else if keyMatches key "assetname" then
    (storeString v a.AssetName).map (fun s => { a with AssetName := s })
  else if keyMatches key "assetproperty" then
    (storeString v a.AssetProperty).map (fun s => { a with AssetProperty := s })
  else if keyMatches key "owner" then
    (storeString v a.Owner).map (fun s => { a with Owner := s })
  else if keyMatches key "price" then
    (storeInt v a.Price).map (fun n => { a with Price := n })
  else Except.ok a

/-- Store one object member into a `scassetTransientInput`. -/
def scassetTransientInput.store (a : scassetTransientInput) (key : List Char)
    (v : JValue) : Except JsonError scassetTransientInput :=
  if keyMatches key "assetname" then
    (storeString v a.AssetName).map (fun s => { a with AssetName := s })
  else if keyMatches key "assetproperty" then
    (storeString v a.AssetProperty).map (fun s => { a with AssetProperty := s })
  else if keyMatches key "owner" then
    (storeString v a.Owner).map (fun s => { a with Owner := s })
  else if keyMatches key "price" then
    (storeInt v a.Price).map (fun n => { a with Price := n })
  else Except.ok a

/-- `json.Unmarshal(data, &asset)` with `var asset Asset`. -/
def unmarshalAsset (data : String) : Except JsonError Asset :=
  unmarshalWith Asset.zero Asset.store data

/-- `json.Unmarshal(data, assetprivate)` with `new(PrivateAsset)`. -/
def unmarshalPrivateAsset (data : String) : Except JsonError PrivateAsset :=
  unmarshalWith PrivateAsset.zero PrivateAsset.store data

/-- `json.Unmarshal(data, &scassetinput)`. -/
def unmarshalTransientInput (data : String) : Except JsonError scassetTransientInput :=
  unmarshalWith scassetTransientInput.zero scassetTransientInput.store data

/-- Equality of results is decidable when it is on both sides. -/
instance exceptDecEq {ε α : Type} [DecidableEq ε] [DecidableEq α] :
    DecidableEq (Except ε α)
  | Except.ok a, Except.ok b =>
    if h : a = b then isTrue (by rw [h]) else isFalse (fun h2 => h (Except.ok.inj h2))
  | Except.error a, Except.error b =>
    if h : a = b then isTrue (by rw [h]) else isFalse (fun h2 => h (Except.error.inj h2))
  | Except.ok _, Except.error _ => isFalse (fun h => by cases h)
  | Except.error _, Except.ok _ => isFalse (fun h => by cases h)

/-! ## The ledger stub

The stub of the ledger platform is outside the repository. It is modelled
as the spec describes it: get, put, range scan and history scan over the
public world state, the same over the restricted collection
`collectionPrivateData`, and the transient map of the transaction. A key is
a non-empty string (`PutState` and `PutPrivateData` refuse the empty key), a
write records one history entry stamped with the transaction time, and the
read calls listed in `failing` return their error. A refused write leaves the
store as it is. Each call of a contract is one transaction on the committed
store. Restrictions that a particular state database puts on keys, and the
deletion of a key by an empty value, are outside the model: the contracts
only write the non-empty text of `json.Marshal`. -/

/-- A ledger key: a non-empty string. -/
abbrev Key := { k : String // k ≠ "" }

/-- A key/value table in ascending key order. -/
abbrev KV := List (Key × String)

/-- The value under a key. -/
def kvGet : KV → String → Option String
  | [], _ => none
  | (k, v) :: rest, key => if k.val = key then some v else kvGet rest key

/-- Write a value under a key, keeping the key order. -/
def kvPut : KV → Key → String → KV
  | [], key, value => [(key, value)]
  | (k, v) :: rest, key, value =>
    if k.val = key.val then (key, value) :: rest
    else if key.val < k.val then (key, value) :: (k, v) :: rest
    else (k, v) :: kvPut rest key value

/-- One entry of the change log: the key written, the value and the seconds
of the transaction timestamp. -/
structure KeyModification where
  EntryKey : String
  Value : String
  Seconds : Int
  deriving DecidableEq

/-- The read calls of the stub that can return an error. -/
inductive ReadCall where
  | getState (key : String) : ReadCall
  | getStateByRange : ReadCall
  | stateNext (i : Nat) : ReadCall
  | getHistoryForKey (key : String) : ReadCall
  | historyNext (i : Nat) : ReadCall
  | getPrivateData (key : String) : ReadCall
  | getPrivateDataByRange : ReadCall
  | privateNext (i : Nat) : ReadCall
  | getPrivateDataHash (key : String) : ReadCall
  deriving DecidableEq

/-- The store: public world state, its change log (oldest entry first), the
restricted collection, and the read calls that fail with their error. -/
structure Ledger where
  world : KV
  history : List KeyModification
  priv : KV
  failing : List (ReadCall × String)
  deriving DecidableEq

/-- What a transaction carries besides the store: the result of
`GetTransient` and the seconds of its timestamp. -/
structure TxContext where
  transient : Except String (List (String × String))
  txSeconds : Int

/-- The error a read call returns, if it fails. -/
def faultOf : List (ReadCall × String) → ReadCall → Option String
  | [], _ => none
  | (c, err) :: rest, call => if c = call then some err else faultOf rest call

/-- `stub.GetState(key)`: the value, `none` for Go `nil`. -/
def GetState (L : Ledger) (key : String) : Except String (Option String) :=
  match faultOf L.failing (ReadCall.getState key) with
  | some err => Except.error err
  | none => Except.ok (kvGet L.world key)

/-- `stub.PutState(key, value)`: refused for the empty key; otherwise the
world state holds the value and the change log has one more entry. -/
def PutState (ctx : TxContext) (L : Ledger) (key value : String) :
    Ledger × Option String :=
  if h : key = "" then (L, some "key must not be an empty string")
  else
    ({ L with
        world := kvPut L.world ⟨key, h⟩ value,
        history := L.history ++ [{ EntryKey := key, Value := value, Seconds := ctx.txSeconds }] },
     none)

/-- `stub.GetStateByRange("", "")`: every entry of the world state in key
order. -/
def GetStateByRange (L : Ledger) : Except String (List (Key × String)) :=
  match faultOf L.failing ReadCall.getStateByRange with
  | some err => Except.error err
  | none => Except.ok L.world

/-- `stub.GetHistoryForKey(key)`: the entries of the change log for the key,
in the order of the log. -/
def GetHistoryForKey (L : Ledger) (key : String) :
    Except String (List KeyModification) :=
  match faultOf L.failing (ReadCall.getHistoryForKey key) with
  | some err => Except.error err
  | none => Except.ok (L.history.filter (fun m => m.EntryKey = key))

/-- `stub.GetPrivateData("collectionPrivateData", key)`. -/
def GetPrivateData (L : Ledger) (key : String) : Except String (Option String) :=
  match faultOf L.failing (ReadCall.getPrivateData key) with
  | some err => Except.error err
  | none => Except.ok (kvGet L.priv key)

/-- `stub.PutPrivateData("collectionPrivateData", key, value)`. -/
def PutPrivateData (L : Ledger) (key value : String) : Ledger × Option String :=
  if h : key = "" then (L, some "key must not be an empty string")
  else ({ L with priv := kvPut L.priv ⟨key, h⟩ value }, none)

/-- `stub.GetPrivateDataByRange("collectionPrivateData", "", "")`. -/
def GetPrivateDataByRange (L : Ledger) : Except String (List (Key × String)) :=
  match faultOf L.failing ReadCall.getPrivateDataByRange with
  | some err => Except.error err
  | none => Except.ok L.priv

/-- `stub.GetPrivateDataHash("collectionPrivateData", key)`: the commitment
hash of the value under the key; `hashOf` is the hash of the platform. -/
def GetPrivateDataHash (hashOf : String → String) (L : Ledger) (key : String) :
    Except String (Option String) :=
  match faultOf L.failing (ReadCall.getPrivateDataHash key) with
  | some err => Except.error err
  | none => Except.ok ((kvGet L.priv key).map hashOf)

/-- Lookup in the transient map. -/
def mapGet : List (String × String) → String → Option String
  | [], _ => none
  | (k, v) :: rest, key => if k = key then some v else mapGet rest key

/-! ## Errors of the contracts -/

/-- The error values the two contracts return, one constructor per return
site of the source, with the message format of that site. -/
inductive ChainError where
  /-- Message "failed to read from world state: %v" -/
  | readWorldState (cause : String) : ChainError
  /-- Message "the asset %s already exists" -/
  | assetExists (assetname : String) : ChainError
  /-- Message "the asset %s does not exist" -/
  | assetMissing (assetname : String) : ChainError
  /-- The error of `json.Unmarshal`, returned as it is. -/
  | json (e : JsonError) : ChainError
  /-- The error of a stub call, returned as it is. -/
  | stub (cause : String) : ChainError
  /-- Message "Error getting transient" followed by the cause. -/
  | transient (cause : String) : ChainError
  /-- Message "Private data not found in the transient map" -/
  | transientMissing : ChainError
  /-- Message "failed to unmarshal JSON: %s" -/
  | unmarshalFailed (e : JsonError) : ChainError
  /-- Message "%s field must be a non-empty string" for assetname, assetproperty, owner. -/
  | emptyField (field : String) : ChainError
  /-- Message "price field must be a positive integer" -/
  | nonPositivePrice : ChainError
  /-- Message "failed to get scprivasset: " followed by the cause. -/
  | getPrivate (cause : String) : ChainError
  /-- Message "This scprivasset already exists: " followed by the name. -/
  | privateExists (assetname : String) : ChainError
  /-- Message "failed to put assetprivate: %s" -/
  | putPrivate (cause : String) : ChainError
  /-- Message "failed to read private asset: %s" -/
  | readPrivate (cause : String) : ChainError
  /-- Message "%s does not exist" -/
  | privateMissing (assetname : String) : ChainError
  /-- Message "failed to get hash for privateasset" followed by the cause. -/
  | hashFailed (cause : String) : ChainError
  /-- Message "Asset does not exist" followed by the name. -/
  | hashMissing (assetname : String) : ChainError
  deriving DecidableEq

/-- The classes of errors. -/
inductive ErrorKind where
  | NotFound : ErrorKind
  | AlreadyExists : ErrorKind
  | ValidationError (field : String) : ErrorKind
  | MissingTransientData : ErrorKind
  | DeserializationError : ErrorKind
  | StorageError : ErrorKind
  deriving DecidableEq

/-- The class of each error value. -/
def ChainError.kind : ChainError → ErrorKind
  | ChainError.readWorldState _ => ErrorKind.StorageError
  | ChainError.assetExists _ => ErrorKind.AlreadyExists
  | ChainError.assetMissing _ => ErrorKind.NotFound
  | ChainError.json _ => ErrorKind.DeserializationError
  | ChainError.stub _ => ErrorKind.StorageError
  | ChainError.transient _ => ErrorKind.StorageError
  | ChainError.transientMissing => ErrorKind.MissingTransientData
  | ChainError.unmarshalFailed _ => ErrorKind.DeserializationError
  | ChainError.emptyField field => ErrorKind.ValidationError field
  | ChainError.nonPositivePrice => ErrorKind.ValidationError "price"
  | ChainError.getPrivate _ => ErrorKind.StorageError
  | ChainError.privateExists _ => ErrorKind.AlreadyExists
  | ChainError.putPrivate _ => ErrorKind.StorageError
  | ChainError.readPrivate _ => ErrorKind.StorageError
  | ChainError.privateMissing _ => ErrorKind.NotFound
  | ChainError.hashFailed _ => ErrorKind.StorageError
  | ChainError.hashMissing _ => ErrorKind.NotFound

/-- An error of the class `ValidationError`, whatever the field. -/
def ChainError.isValidation (e : ChainError) : Bool :=
  match e.kind with
  | ErrorKind.ValidationError _ => true
  | _ => false

/-! ## The public asset ledger (sc_chaincode.go) -/

/-- `AssetExists`: true when asset with given assetname exists in world
state. -/
def AssetExists (L : Ledger) (assetname : String) : Except ChainError Bool :=
  match GetState L assetname with
  | Except.error err => Except.error (ChainError.readWorldState err)
  | Except.ok assetJSON => Except.ok assetJSON.isSome

/-- `CreateAsset`: issues a brand-new asset to the world state. The result
is the store after the call and the Go `error` (`none` for `nil`).
`json.Marshal` has no error on this record type. -/
def CreateAsset (ctx : TxContext) (L : Ledger)
    (assetname assetproperty owner : String) : Ledger × Option ChainError :=
  match AssetExists L assetname with
  | Except.error err => (L, some err)
  | Except.ok exist =>
    if exist then (L, some (ChainError.assetExists assetname))
    else
      let asset : Asset :=
        { AssetName := assetname, AssetProperty := assetproperty, Owner := owner,
          AssetProcessInfo := "", AssetOriginalPrice := GoInt.zero,
          AssetProcessPrice := GoInt.zero }
      let assetJSON := marshalAsset asset
      ((PutState ctx L assetname assetJSON).1,
       (PutState ctx L assetname assetJSON).2.map ChainError.stub)

/-- `ReadAsset`: the asset stored in the world state with given assetname. -/
def ReadAsset (L : Ledger) (assetname : String) : Except ChainError Asset :=
  match GetState L assetname with
  | Except.error err => Except.error (ChainError.readWorldState err)
  | Except.ok none => Except.error (ChainError.assetMissing assetname)
  | Except.ok (some assetJSON) =>
    match unmarshalAsset assetJSON with
    | Except.error e => Except.error (ChainError.json e)
    | Except.ok asset => Except.ok asset

/-- The tail shared by the four writers of the public contract, named for
the proofs: marshal the record and put it under the name. -/
def writeAsset (ctx : TxContext) (L : Ledger) (assetname : String) (asset : Asset) :
    Ledger × Option ChainError :=
  let assetJSON := marshalAsset asset
  ((PutState ctx L assetname assetJSON).1,
   (PutState ctx L assetname assetJSON).2.map ChainError.stub)

/-- `SellOriginalAsset`: updates the owner field and fills the
assetoriginalprice field. -/
def SellOriginalAsset (ctx : TxContext) (L : Ledger) (assetname newowner : String)
    (assetoriginalprice : GoInt) : Ledger × Option ChainError :=
  match ReadAsset L assetname with
  | Except.error err => (L, some err)
  | Except.ok asset =>
    let sold : Asset :=
      { asset with Owner := newowner, AssetOriginalPrice := assetoriginalprice }
    let assetJSON := marshalAsset sold
    ((PutState ctx L assetname assetJSON).1,
     (PutState ctx L assetname assetJSON).2.map ChainError.stub)

/-- `ProcessAsset`: fills the assetprocessinfo field. -/
def ProcessAsset (ctx : TxContext) (L : Ledger) (assetname assetprocessinfo : String) :
    Ledger × Option ChainError :=
  match ReadAsset L assetname with
  | Except.error err => (L, some err)
  | Except.ok asset =>
    let processed : Asset := { asset with AssetProcessInfo := assetprocessinfo }
    let assetJSON := marshalAsset processed
    ((PutState ctx L assetname assetJSON).1,
     (PutState ctx L assetname assetJSON).2.map ChainError.stub)

/-- `SellProcessedAsset`: updates the owner field and fills the
assetprocessprice field. -/
def SellProcessedAsset (ctx : TxContext) (L : Ledger) (assetname newowner : String)
    (assetprocessprice : GoInt) : Ledger × Option ChainError :=
  match ReadAsset L assetname with
  | Except.error err => (L, some err)
  | Except.ok asset =>
    let sold : Asset :=
      { asset with Owner := newowner, AssetProcessPrice := assetprocessprice }
    let assetJSON := marshalAsset sold
    ((PutState ctx L assetname assetJSON).1,
     (PutState ctx L assetname assetJSON).2.map ChainError.stub)

/-- The loop of `GetAllAssets` from the `i`-th `Next()` on. -/
def collectAssets (L : Ledger) : Nat → List (Key × String) →
    Except ChainError (List Asset)
  | _, [] => Except.ok []
  | i, (_, value) :: rest =>
    match faultOf L.failing (ReadCall.stateNext i) with
    | some err => Except.error (ChainError.stub err)
    | none =>
      match unmarshalAsset value with
      | Except.error e => Except.error (ChainError.json e)
      | Except.ok asset =>
        match collectAssets L (i + 1) rest with
        | Except.error e => Except.error e
        | Except.ok assets => Except.ok (asset :: assets)

/-- `GetAllAssets`: all assets found in world state. -/
def GetAllAssets (L : Ledger) : Except ChainError (List Asset) :=
  match GetStateByRange L with
  | Except.error err => Except.error (ChainError.stub err)
  | Except.ok entries => collectAssets L 0 entries

/-- The loop of `GetHistory` from the `i`-th `Next()` on; `render` is
`time.Unix(seconds, 0).Format(layout)` for the layout of the source. -/
def collectHistory (render : Int → String) (L : Ledger) :
    Nat → List KeyModification → Except ChainError (List String)
  | _, [] => Except.ok []
  | i, response :: rest =>
    match faultOf L.failing (ReadCall.historyNext i) with
    | some err => Except.error (ChainError.stub err)
    | none =>
      match collectHistory render L (i + 1) rest with
      | Except.error e => Except.error e
      | Except.ok assethistory =>
        Except.ok ((render response.Seconds ++ ":" ++ response.Value) :: assethistory)

/-- `GetHistory`: the operational history of asset by given assetname. -/
def GetHistory (render : Int → String) (L : Ledger) (assetname : String) :
    Except ChainError (List String) :=
  match AssetExists L assetname with
  | Except.error err => Except.error err
  | Except.ok exist =>
    if !exist then Except.error (ChainError.assetMissing assetname)
    else
      match GetHistoryForKey L assetname with
      | Except.error err => Except.error (ChainError.stub err)
      | Except.ok entries => collectHistory render L 0 entries

/-! ## The private deal ledger (sc_private.go) -/

/-- `PrivateDeal`: creates a private transaction from the transient field
`scprivasset`. -/
def PrivateDeal (ctx : TxContext) (L : Ledger) : Ledger × Option ChainError :=
  match ctx.transient with
  | Except.error err => (L, some (ChainError.transient err))
  | Except.ok transMap =>
    match mapGet transMap "scprivasset" with
    | none => (L, some ChainError.transientMissing)
    | some transientAssetJSON =>
      match unmarshalTransientInput transientAssetJSON with
      | Except.error e => (L, some (ChainError.unmarshalFailed e))
      | Except.ok scassetinput =>
        if scassetinput.AssetName.length = 0 then
          (L, some (ChainError.emptyField "assetname"))
        else if scassetinput.AssetProperty.length = 0 then
          (L, some (ChainError.emptyField "assetproperty"))
        else if scassetinput.Owner.length = 0 then
          (L, some (ChainError.emptyField "owner"))
        else if scassetinput.Price.val ≤ 0 then
          (L, some ChainError.nonPositivePrice)
        else
          match GetPrivateData L scassetinput.AssetName with
          | Except.error err => (L, some (ChainError.getPrivate err))
          | Except.ok (some _) =>
            (L, some (ChainError.privateExists scassetinput.AssetName))
          | Except.ok none =>
            let assetprivate : PrivateAsset :=
              { ObjectType := "SCPrivAsset",
                AssetName := scassetinput.AssetName,
                AssetProperty := scassetinput.AssetProperty,
                Owner := scassetinput.Owner,
                Price := scassetinput.Price }
            let assetprivateJSON := marshalPrivateAsset assetprivate
            ((PutPrivateData L scassetinput.AssetName assetprivateJSON).1,
             (PutPrivateData L scassetinput.AssetName assetprivateJSON).2.map
               ChainError.putPrivate)

/-- `ReadAssetPrivate`: reads private asset by assetname. -/
def ReadAssetPrivate (L : Ledger) (assetname : String) :
    Except ChainError PrivateAsset :=
  match GetPrivateData L assetname with
  | Except.error err => Except.error (ChainError.readPrivate err)
  | Except.ok none => Except.error (ChainError.privateMissing assetname)
  | Except.ok (some assetprivateJSON) =>
    match unmarshalPrivateAsset assetprivateJSON with
    | Except.error e => Except.error (ChainError.unmarshalFailed e)
    | Except.ok assetprivate => Except.ok assetprivate

/-- The loop of `GetAllPrivateAssets` from the `i`-th `Next()` on. -/
def collectPrivateAssets (L : Ledger) : Nat → List (Key × String) →
    Except ChainError (List PrivateAsset)
  | _, [] => Except.ok []
  | i, (_, value) :: rest =>
    match faultOf L.failing (ReadCall.privateNext i) with
    | some err => Except.error (ChainError.stub err)
    | none =>
      match unmarshalPrivateAsset value with
      | Except.error e => Except.error (ChainError.json e)
      | Except.ok privateasset =>
        match collectPrivateAssets L (i + 1) rest with
        | Except.error e => Except.error e
        | Except.ok privateassets => Except.ok (privateasset :: privateassets)

/-- `GetAllPrivateAssets`: all privateassets. -/
def GetAllPrivateAssets (L : Ledger) : Except ChainError (List PrivateAsset) :=
  match GetPrivateDataByRange L with
  | Except.error err => Except.error (ChainError.stub err)
  | Except.ok entries => collectPrivateAssets L 0 entries

/-- `GetPrivateAssetHash`: the hash recorded for the asset. -/
def GetPrivateAssetHash (hashOf : String → String) (L : Ledger) (assetname : String) :
    Except ChainError String :=
  match GetPrivateDataHash hashOf L assetname with
  | Except.error err => Except.error (ChainError.hashFailed err)
  | Except.ok none => Except.error (ChainError.hashMissing assetname)
  | Except.ok (some hashAsbytes) => Except.ok hashAsbytes

/-! ## Calls of the contracts as data -/

/-- The Go `error` of a call that also returns a value. -/
def errorOf {α : Type} : Except ChainError α → Option ChainError
  | Except.error e => some e
  | Except.ok _ => none

/-- A call of the public contract with its arguments. -/
inductive PublicCall where
  | AssetExists (assetname : String) : PublicCall
  | CreateAsset (assetname assetproperty owner : String) : PublicCall
  | ReadAsset (assetname : String) : PublicCall
  | SellOriginalAsset (assetname newowner : String) (assetoriginalprice : GoInt) : PublicCall
  | ProcessAsset (assetname assetprocessinfo : String) : PublicCall
  | SellProcessedAsset (assetname newowner : String) (assetprocessprice : GoInt) : PublicCall
  | GetAllAssets : PublicCall
  | GetHistory (assetname : String) : PublicCall

/-- A call of the private contract with its arguments; the transient input
of `PrivateDeal` is in the transaction context. -/
inductive PrivateCall where
  | PrivateDeal : PrivateCall
  | ReadAssetPrivate (assetname : String) : PrivateCall
  | GetAllPrivateAssets : PrivateCall
  | GetPrivateAssetHash (assetname : String) : PrivateCall

/-- One call of the public contract: the store after it and its error. The
calls that only read return the store they were given. -/
def execPublic (render : Int → String) (ctx : TxContext) (L : Ledger) :
    PublicCall → Ledger × Option ChainError
  | PublicCall.AssetExists n => (L, errorOf (AssetExists L n))
  | PublicCall.CreateAsset n p o => CreateAsset ctx L n p o
  | PublicCall.ReadAsset n => (L, errorOf (ReadAsset L n))
  | PublicCall.SellOriginalAsset n o p => SellOriginalAsset ctx L n o p
  | PublicCall.ProcessAsset n i => ProcessAsset ctx L n i
  | PublicCall.SellProcessedAsset n o p => SellProcessedAsset ctx L n o p
  | PublicCall.GetAllAssets => (L, errorOf (GetAllAssets L))
  | PublicCall.GetHistory n => (L, errorOf (GetHistory render L n))

/-- One call of the private contract: the store after it and its error. -/
def execPrivate (hashOf : String → String) (ctx : TxContext) (L : Ledger) :
    PrivateCall → Ledger × Option ChainError
  | PrivateCall.PrivateDeal => PrivateDeal ctx L
  | PrivateCall.ReadAssetPrivate n => (L, errorOf (ReadAssetPrivate L n))
  | PrivateCall.GetAllPrivateAssets => (L, errorOf (GetAllPrivateAssets L))
  | PrivateCall.GetPrivateAssetHash n => (L, errorOf (GetPrivateAssetHash hashOf L n))

/-- A sequence of transactions of the private contract, each with its own
context, run one after the other. -/
def runPrivate (hashOf : String → String) :
    List (TxContext × PrivateCall) → Ledger → Ledger
  | [], L => L
  | (ctx, call) :: rest, L => runPrivate hashOf rest (execPrivate hashOf ctx L call).1

/-! ## Value trees of the marshalled records -/

/-- The value tree of a marshalled `Asset`. -/
def assetTree (a : Asset) : JValue :=
  JValue.obj
    [("assetname".data, JValue.str a.AssetName.data),
     ("assetproperty".data, JValue.str a.AssetProperty.data),
     ("owner".data, JValue.str a.Owner.data),
     ("assetprocessinfo".data, JValue.str a.AssetProcessInfo.data),
     ("assetoriginalprice".data, JValue.num (formatInt a.AssetOriginalPrice.val)),
     ("assetprocessprice".data, JValue.num (formatInt a.AssetProcessPrice.val))]

/-- The value tree of a marshalled `PrivateAsset`. -/
def privateAssetTree (a : PrivateAsset) : JValue :=
  JValue.obj
    [("docType".data, JValue.str a.ObjectType.data),
     ("assetname".data, JValue.str a.AssetName.data),
     ("assetproperty".data, JValue.str a.AssetProperty.data),
     ("owner".data, JValue.str a.Owner.data),
     ("price".data, JValue.num (formatInt a.Price.val))]

/-! ## Sample values -/

/-- A store with nothing in it and no failing call. -/
def emptyLedger : Ledger := { world := [], history := [], priv := [], failing := [] }

/-- A transaction with an empty transient map. -/
def plainTx : TxContext := { transient := Except.ok [], txSeconds := 1631415845 }

/-- The transient payload of a well-formed private deal. -/
def dealPayload : String :=
  "\x7b\"assetname\":\"P1\",\"assetproperty\":\"fresh\",\"owner\":\"Ann\",\"price\":5\x7d"

/-- A transaction carrying `dealPayload`. -/
def dealTx : TxContext :=
  { transient := Except.ok [("scprivasset", dealPayload)], txSeconds := 1631415845 }

/-- A transient payload whose price is zero. -/
def freePayload : String :=
  "\x7b\"assetname\":\"P1\",\"assetproperty\":\"fresh\",\"owner\":\"Ann\",\"price\":0\x7d"

/-- A transaction carrying `freePayload`. -/
def freeTx : TxContext :=
  { transient := Except.ok [("scprivasset", freePayload)], txSeconds := 1631415845 }

/-- A transaction whose transient entry is no JSON text. -/
def brokenTx : TxContext :=
  { transient := Except.ok [("scprivasset", "price=5")], txSeconds := 1631415845 }

/-- A Go `int` literal used in the examples. -/
def int100 : GoInt := ⟨100, by decide⟩

/-- A Go `int` literal used in the examples. -/
def int200 : GoInt := ⟨200, by decide⟩

/-- A Go `int` literal used in the examples. -/
def int5 : GoInt := ⟨5, by decide⟩

/-! ## Runs of the public contract and the order of keys -/

/-- A sequence of transactions of the public contract, each with its own
context, run one after the other. -/
def runPublic (render : Int → String) :
    List (TxContext × PublicCall) → Ledger → Ledger
  | [], L => L
  | (ctx, call) :: rest, L => runPublic render rest (execPublic render ctx L call).1

/-- The keys of a table are in strictly ascending order. -/
def KeysAscending (m : KV) : Prop :=
  m.Pairwise (fun a b => a.1.val < b.1.val)

/-- A transaction with an empty transient map and a later timestamp. -/
def laterTx : TxContext := { transient := Except.ok [], txSeconds := 1631415900 }

/-- A transaction with an empty transient map and a still later timestamp. -/
def lastTx : TxContext := { transient := Except.ok [], txSeconds := 1631416000 }

/-- A transient payload with an empty name and price zero. -/
def namelessPayload : String :=
  "\x7b\"assetname\":\"\",\"assetproperty\":\"fresh\",\"owner\":\"Ann\",\"price\":0\x7d"

/-- A transaction carrying `namelessPayload`. -/
def namelessTx : TxContext :=
  { transient := Except.ok [("scprivasset", namelessPayload)], txSeconds := 1631415845 }

/-- The transient payload of a second well-formed private deal. -/
def earlyDealPayload : String :=
  "\x7b\"assetname\":\"D0\",\"assetproperty\":\"dry\",\"owner\":\"Bob\",\"price\":9\x7d"

/-- A transaction carrying `earlyDealPayload`. -/
def earlyDealTx : TxContext :=
  { transient := Except.ok [("scprivasset", earlyDealPayload)], txSeconds := 1631415900 }

/-- A store whose restricted collection holds bytes that are no record and
whose private range scan fails, while its public side is empty and sound. -/
def brokenPrivateLedger : Ledger :=
  { world := [], history := [],
    priv := [(⟨"k", by decide⟩, "not json")],
    failing := [(ReadCall.getPrivateDataByRange, "unavailable")] }

/-- A store whose world state holds bytes that are no record and whose public
range scan fails, while its restricted collection is empty and sound. -/
def brokenPublicLedger : Ledger :=
  { world := [(⟨"w", by decide⟩, "not json")], history := [],
    priv := [],
    failing := [(ReadCall.getStateByRange, "unavailable")] }

/-- The store after "b1" and "a1" are created, in this order, on
`brokenPrivateLedger`. -/
def listedLedger : Ledger :=
  runPublic (fun _ => "")
    [(plainTx, PublicCall.CreateAsset "b1" "pear" "farm"),
     (laterTx, PublicCall.CreateAsset "a1" "apple" "farm")] brokenPrivateLedger

/-- The store after the deals "P1" and "D0", in this order, on
`brokenPublicLedger`. -/
def dealtLedger : Ledger :=
  runPrivate (fun s => s)
    [(dealTx, PrivateCall.PrivateDeal), (earlyDealTx, PrivateCall.PrivateDeal)]
    brokenPublicLedger

/-- The shape shared by the three updates of the public contract, named for
the proofs: read the record, change it, marshal it and put it back. -/
def updateAsset (ctx : TxContext) (L : Ledger) (assetname : String)
    (change : Asset → Asset) : Ledger × Option ChainError :=
  match ReadAsset L assetname with
  | Except.error err => (L, some err)
  | Except.ok asset => writeAsset ctx L assetname (change asset)

/-! ## Lemmas on the codec -/

theorem toNat_ofNat_small (n : Nat) (h : n < 55296) : (Char.ofNat n).toNat = n := by
  have hv : n.isValidChar := Or.inl h
  simp [Char.ofNat, hv, Char.ofNatAux, Char.toNat]
  rfl

theorem char_of_toNat (c : Char) (n : Nat) (h : c.toNat = n) : c = Char.ofNat n := by
  rw [← h]; exact (Char.ofNat_toNat c).symm

theorem hexVal_hexDigit (k : Nat) (h : k < 16) : hexVal (hexDigit k) = some k := by
  interval_cases k <;> rfl

theorem hex4_low (n : Nat) (h : n < 256) :
    hex4 '0' '0' (hexDigit (n / 16)) (hexDigit (n % 16)) = some n := by
  have h1 : hexVal (hexDigit (n / 16)) = some (n / 16) := hexVal_hexDigit _ (by omega)
  have h2 : hexVal (hexDigit (n % 16)) = some (n % 16) := hexVal_hexDigit _ (by omega)
  have h0 : hexVal '0' = some 0 := rfl
  simp only [hex4, h0, h1, h2]
  congr 1
  omega

theorem stringItem_plain (c : Char) (rest : List Char) (h1 : c.toNat ≠ 92)
    (h2 : 32 ≤ c.toNat) : stringItem (c :: rest) = some (c, rest) := by
  have hne : c ≠ rsolidus := by
    intro h; apply h1; rw [h]; rfl
  simp only [stringItem, hne, if_false]
  rw [if_neg (by omega)]

theorem stringItem_escapeChar (c : Char) (rest : List Char) :
    stringItem (escapeChar c ++ rest) = some (c, rest) := by
  unfold escapeChar
  simp only []
  split_ifs with h1 h2 h3 h4 h5 h6 h7
  · rcases h1 with h | h
    · rw [char_of_toNat c _ h]; rfl
    · rw [char_of_toNat c _ h]; rfl
  · rw [char_of_toNat c _ h2]; rfl
  · rw [char_of_toNat c _ h3]; rfl
  · rw [char_of_toNat c _ h4]; rfl
  · have hlt : c.toNat < 256 := by omega
    have hx := hex4_low c.toNat hlt
    simp only [List.cons_append, List.nil_append, stringItem, if_true, hx]
    rw [if_neg (by omega), if_neg (by omega), Char.ofNat_toNat]
  · rw [char_of_toNat c _ h6]; rfl
  · rw [char_of_toNat c _ h7]; rfl
  · exact stringItem_plain c rest (by omega) (by omega)

theorem escapeChar_head (c : Char) :
    ∃ x xs, escapeChar c = x :: xs ∧ x ≠ dquote := by
  unfold escapeChar
  simp only []
  split_ifs with h1 h2 h3 h4 h5 h6 h7
  all_goals first
    | exact ⟨rsolidus, _, rfl, by decide⟩
    | exact ⟨c, [], rfl, fun h => h1 (Or.inl (by rw [h]; rfl))⟩

theorem scanString_escapeString (s rest : List Char) :
    ∀ fuel, (escapeString s).length < fuel →
      scanString fuel (escapeString s ++ dquote :: rest) = some (s, rest) := by
  induction s with
  | nil =>
    intro fuel hf
    obtain ⟨f, rfl⟩ : ∃ f, fuel = f + 1 := ⟨fuel - 1, by simp [escapeString] at hf; omega⟩
    simp [escapeString, scanString]
  | cons c cs ih =>
    intro fuel hf
    obtain ⟨x, xs, hx, hne⟩ := escapeChar_head c
    have hitem := stringItem_escapeChar c (escapeString cs ++ dquote :: rest)
    simp only [escapeString, List.length_append, hx, List.length_cons] at hf
    obtain ⟨f, rfl⟩ : ∃ f, fuel = f + 1 := ⟨fuel - 1, by omega⟩
    have ih2 := ih f (by omega)
    rw [hx] at hitem
    simp only [escapeString, hx, List.cons_append, List.append_assoc] at hitem ⊢
    simp only [scanString, hne, if_false, hitem, ih2]

theorem digit_toNat (d : Nat) (h : d < 10) : (Char.ofNat (48 + d)).toNat = 48 + d :=
  toNat_ofNat_small _ (by omega)

theorem isDigit_digit (d : Nat) (h : d < 10) : isDigit (Char.ofNat (48 + d)) = true := by
  simp only [isDigit, digit_toNat d h, Bool.and_eq_true, decide_eq_true_eq]
  omega

theorem decDigits_all_digits : ∀ (fuel n : Nat) (c : Char),
    c ∈ decDigits fuel n → isDigit c = true := by
  intro fuel
  induction fuel with
  | zero => intro n c hc; simp [decDigits] at hc
  | succ f ih =>
    intro n c hc
    unfold decDigits at hc
    split_ifs at hc with h
    · simp only [List.mem_singleton] at hc
      rw [hc]; exact isDigit_digit n h
    · rcases List.mem_append.mp hc with h1 | h1
      · exact ih _ _ h1
      · simp only [List.mem_singleton] at h1
        rw [h1]; exact isDigit_digit _ (Nat.mod_lt _ (by decide))

theorem decDigits_ne_nil (fuel n : Nat) : decDigits (fuel + 1) n ≠ [] := by
  unfold decDigits
  split_ifs <;> simp

theorem digitsValue_append (xs ys : List Char) : ∀ acc : Nat,
    digitsValue (xs ++ ys) acc = (digitsValue xs acc).bind (fun a => digitsValue ys a) := by
  induction xs with
  | nil => intro acc; simp [digitsValue]
  | cons x xs ih =>
    intro acc
    simp only [List.cons_append, digitsValue]
    split_ifs
    · exact ih _
    · rfl

theorem digitsValue_single (d acc : Nat) (h : d < 10) :
    digitsValue [Char.ofNat (48 + d)] acc = some (acc * 10 + d) := by
  simp only [digitsValue, isDigit_digit d h, if_true, digit_toNat d h]
  congr 1
  omega

theorem digitsValue_decDigits : ∀ (fuel n : Nat), n < fuel →
    digitsValue (decDigits fuel n) 0 = some n := by
  intro fuel
  induction fuel with
  | zero => intro n h; omega
  | succ f ih =>
    intro n hn
    unfold decDigits
    split_ifs with h
    · rw [digitsValue_single n 0 h]; simp
    · rw [digitsValue_append, ih (n / 10) (by omega)]
      simp only [Option.some_bind]
      rw [digitsValue_single _ _ (Nat.mod_lt _ (by decide))]
      congr 1
      omega

theorem decDigits_head_zero : ∀ (fuel n : Nat) (c : Char) (cs : List Char), n < fuel →
    decDigits fuel n = c :: cs → c = '0' → n = 0 ∧ cs = [] := by
  intro fuel
  induction fuel with
  | zero => intro n c cs h; omega
  | succ f ih =>
    intro n c cs hn hd hc
    unfold decDigits at hd
    split_ifs at hd with h
    · simp only [List.cons.injEq] at hd
      obtain ⟨h1, h2⟩ := hd
      refine ⟨?_, h2.symm⟩
      have := digit_toNat n h
      rw [h1, hc] at this
      have h0 : ('0' : Char).toNat = 48 := rfl
      omega
    · exfalso
      have hlt : n / 10 < f := by omega
      cases hx : decDigits f (n / 10) with
      | nil =>
        obtain ⟨g, rfl⟩ : ∃ g, f = g + 1 := ⟨f - 1, by omega⟩
        exact decDigits_ne_nil g _ hx
      | cons y ys =>
        rw [hx] at hd
        simp only [List.cons_append, List.cons.injEq] at hd
        have := (ih (n / 10) y ys hlt hx (hd.1.trans hc)).1
        omega

theorem takeDigits_append (xs : List Char) (r : Char) (rs : List Char)
    (hxs : ∀ c ∈ xs, isDigit c = true) (hr : isDigit r = false) :
    takeDigits (xs ++ r :: rs) = (xs, r :: rs) := by
  induction xs with
  | nil => simp [takeDigits, hr]
  | cons x xs ih =>
    have hx : isDigit x = true := hxs x (List.mem_cons_self _ _)
    have ih2 := ih (fun c hc => hxs c (List.mem_cons_of_mem _ hc))
    rw [List.cons_append]
    unfold takeDigits
    rw [if_pos hx, ih2]

theorem scanIntPart_formatNat (n : Nat) (r : Char) (rs : List Char)
    (hr : isDigit r = false) :
    scanIntPart (formatNat n ++ r :: rs) = some (formatNat n, r :: rs) := by
  unfold formatNat
  have hall := decDigits_all_digits (n + 1) n
  cases hd : decDigits (n + 1) n with
  | nil => exact absurd hd (decDigits_ne_nil n n)
  | cons c cs =>
    rw [hd] at hall
    simp only [List.cons_append, scanIntPart]
    by_cases hc : c = '0'
    · have := decDigits_head_zero (n + 1) n c cs (by omega) hd hc
      simp [hc, this.2]
    · have hcd : isDigit c = true := hall c (List.mem_cons_self _ _)
      have htd := takeDigits_append cs r rs
        (fun x hx => hall x (List.mem_cons_of_mem _ hx)) hr
      simp only [hc, if_false, hcd, if_true, htd]

theorem formatNat_head (n : Nat) :
    ∃ c cs, formatNat n = c :: cs ∧ isDigit c = true := by
  unfold formatNat
  have hall := decDigits_all_digits (n + 1) n
  cases hd : decDigits (n + 1) n with
  | nil => exact absurd hd (decDigits_ne_nil n n)
  | cons c cs =>
    rw [hd] at hall
    exact ⟨c, cs, rfl, hall c (List.mem_cons_self _ _)⟩

theorem isDigit_ne_minus (c : Char) (h : isDigit c = true) : c ≠ '-' := by
  intro hc
  rw [hc] at h
  exact absurd h (by decide)

theorem scanTail (r : Char) (rs : List Char) (h2 : r ≠ '.') (h3 : r ≠ 'e') (h4 : r ≠ 'E') :
    scanFrac (r :: rs) = some ([], r :: rs) ∧ scanExp (r :: rs) = some ([], r :: rs) := by
  constructor
  · simp only [scanFrac, h2, if_false]
  · simp only [scanExp, h3, h4, or_self, if_false]

theorem scanNumber_formatInt (i : Int) (r : Char) (rs : List Char)
    (h1 : isDigit r = false) (h2 : r ≠ '.') (h3 : r ≠ 'e') (h4 : r ≠ 'E') :
    scanNumber (formatInt i ++ r :: rs) = some (formatInt i, r :: rs) := by
  obtain ⟨hf, he⟩ := scanTail r rs h2 h3 h4
  unfold formatInt
  split_ifs with hneg
  · have hip := scanIntPart_formatNat i.natAbs r rs h1
    simp only [scanNumber, List.cons_append, if_true, hip, hf, he]
    simp
  · obtain ⟨c, cs, hcs, hcd⟩ := formatNat_head i.toNat
    have hip := scanIntPart_formatNat i.toNat r rs h1
    rw [hcs] at hip ⊢
    have hm := isDigit_ne_minus c hcd
    simp only [List.cons_append] at hip
    simp only [scanNumber, List.cons_append, hm, if_false, hip, hf, he]
    simp

theorem parseInt_formatInt (i : Int) : parseInt (formatInt i) = some i := by
  unfold formatInt
  split_ifs with hneg
  · obtain ⟨c, cs, hcs, -⟩ := formatNat_head i.natAbs
    have hv : digitsValue (formatNat i.natAbs) 0 = some i.natAbs :=
      digitsValue_decDigits _ _ (by omega)
    rw [hcs] at hv
    simp only [parseInt, if_true, hcs, hv]
    congr 1
    omega
  · obtain ⟨c, cs, hcs, hcd⟩ := formatNat_head i.toNat
    have hv : digitsValue (formatNat i.toNat) 0 = some i.toNat :=
      digitsValue_decDigits _ _ (by omega)
    rw [hcs] at hv
    have hm := isDigit_ne_minus c hcd
    simp only [parseInt, hcs, hm, if_false, hv]
    congr 1
    omega

theorem parseGoInt_formatInt (n : GoInt) : parseGoInt (formatInt n.val) = some n := by
  simp only [parseGoInt, parseInt_formatInt]
  rw [dif_pos n.property]

theorem formatInt_head (i : Int) :
    ∃ c cs, formatInt i = c :: cs ∧ (c = '-' ∨ isDigit c = true) := by
  unfold formatInt
  split_ifs with hneg
  · exact ⟨'-', _, rfl, Or.inl rfl⟩
  · obtain ⟨c, cs, hcs, hcd⟩ := formatNat_head i.toNat
    exact ⟨c, cs, hcs, Or.inr hcd⟩

theorem skipSpace_cons (c : Char) (cs : List Char) (h : isSpace c = false) :
    skipSpace (c :: cs) = c :: cs := by
  simp only [skipSpace, h, Bool.false_eq_true, if_false]

theorem parseValue_string (f depth : Nat) (s rest : List Char) :
    parseValue (f + 1) depth (dquote :: (escapeString s ++ dquote :: rest)) =
      some (JValue.str s, rest) := by
  have hs := scanString_escapeString s rest (escapeString s ++ dquote :: rest).length
    (by simp)
  have h1 : dquote ≠ lbrace := by decide
  have h2 : dquote ≠ lbracket := by decide
  simp only [parseValue, h1, h2, if_false, if_true, hs]

theorem parseValue_int (f depth : Nat) (i : Int) (r : Char) (rs : List Char)
    (h1 : isDigit r = false) (h2 : r ≠ '.') (h3 : r ≠ 'e') (h4 : r ≠ 'E') :
    parseValue (f + 1) depth (formatInt i ++ r :: rs) =
      some (JValue.num (formatInt i), r :: rs) := by
  have hn := scanNumber_formatInt i r rs h1 h2 h3 h4
  obtain ⟨c, cs, hcs, hc⟩ := formatInt_head i
  rw [hcs] at hn ⊢
  have e1 : c ≠ lbrace := by
    rintro rfl; rcases hc with h | h <;> exact absurd h (by decide)
  have e2 : c ≠ lbracket := by
    rintro rfl; rcases hc with h | h <;> exact absurd h (by decide)
  have e3 : c ≠ dquote := by
    rintro rfl; rcases hc with h | h <;> exact absurd h (by decide)
  simp only [List.cons_append] at hn
  simp only [List.cons_append, parseValue, e1, e2, e3, if_false, hc, if_true, hn]

theorem parseMembers_cons (f depth : Nat) (nm rest1 tail : List Char) (v : JValue)
    (hnm : escapeString nm = nm)
    (hval : parseValue (f + 1) depth (skipSpace rest1) = some (v, ',' :: tail)) :
    parseMembers (f + 2) depth (dquote :: (nm ++ dquote :: ':' :: rest1)) =
      match parseMembers (f + 1) depth (skipSpace tail) with
      | none => none
      | some (ms, r5) => some ((nm, v) :: ms, r5) := by
  have hs := scanString_escapeString nm (':' :: rest1)
    (escapeString nm ++ dquote :: ':' :: rest1).length (by simp)
  rw [hnm] at hs
  have hsp1 : skipSpace (':' :: rest1) = ':' :: rest1 := skipSpace_cons _ _ (by decide)
  have hsp2 : skipSpace (',' :: tail) = ',' :: tail := skipSpace_cons _ _ (by decide)
  simp only [parseMembers, if_true, hs, hsp1, hval, hsp2]

theorem parseMembers_last (f depth : Nat) (nm rest1 tail : List Char) (v : JValue)
    (hnm : escapeString nm = nm)
    (hval : parseValue (f + 1) depth (skipSpace rest1) = some (v, rbrace :: tail)) :
    parseMembers (f + 2) depth (dquote :: (nm ++ dquote :: ':' :: rest1)) =
      some ([(nm, v)], tail) := by
  have hs := scanString_escapeString nm (':' :: rest1)
    (escapeString nm ++ dquote :: ':' :: rest1).length (by simp)
  rw [hnm] at hs
  have hsp1 : skipSpace (':' :: rest1) = ':' :: rest1 := skipSpace_cons _ _ (by decide)
  have hsp2 : skipSpace (rbrace :: tail) = rbrace :: tail := skipSpace_cons _ _ (by decide)
  have hne : rbrace ≠ ',' := by decide
  simp only [parseMembers, if_true, hs, hsp1, hval, hsp2, hne, if_false]

theorem member_str (f depth : Nat) (nm s : String) (tail : List Char)
    (hnm : escapeString nm.data = nm.data) :
    parseMembers (f + 2) depth (fieldName nm ++ (quoteString s ++ ([','] ++ tail))) =
      match parseMembers (f + 1) depth (skipSpace tail) with
      | none => none
      | some (ms, r5) => some ((nm.data, JValue.str s.data) :: ms, r5) := by
  have hval : parseValue (f + 1) depth
      (skipSpace (dquote :: (escapeString s.data ++ dquote :: ',' :: tail))) =
      some (JValue.str s.data, ',' :: tail) := by
    rw [skipSpace_cons _ _ (by decide)]
    exact parseValue_string f depth s.data (',' :: tail)
  have := parseMembers_cons f depth nm.data _ tail _ hnm hval
  simpa [fieldName, quoteString] using this

theorem member_int (f depth : Nat) (nm : String) (i : Int) (tail : List Char)
    (hnm : escapeString nm.data = nm.data) :
    parseMembers (f + 2) depth (fieldName nm ++ (formatInt i ++ ([','] ++ tail))) =
      match parseMembers (f + 1) depth (skipSpace tail) with
      | none => none
      | some (ms, r5) => some ((nm.data, JValue.num (formatInt i)) :: ms, r5) := by
  obtain ⟨c, cs, hcs, hc⟩ := formatInt_head i
  have hsp : skipSpace (formatInt i ++ ',' :: tail) = formatInt i ++ ',' :: tail := by
    rw [hcs]
    refine skipSpace_cons _ _ ?_
    rcases hc with h | h
    · rw [h]; decide
    · simp only [isDigit, Bool.and_eq_true, decide_eq_true_eq] at h
      simp only [isSpace, Bool.or_eq_false_iff, decide_eq_false_iff_not]
      omega
  have hval : parseValue (f + 1) depth (skipSpace (formatInt i ++ ',' :: tail)) =
      some (JValue.num (formatInt i), ',' :: tail) := by
    rw [hsp]
    exact parseValue_int f depth i ',' tail (by decide) (by decide) (by decide) (by decide)
  have := parseMembers_cons f depth nm.data _ tail _ hnm hval
  simpa [fieldName] using this

theorem member_int_last (f depth : Nat) (nm : String) (i : Int)
    (hnm : escapeString nm.data = nm.data) :
    parseMembers (f + 2) depth (fieldName nm ++ (formatInt i ++ [rbrace])) =
      some ([(nm.data, JValue.num (formatInt i))], []) := by
  obtain ⟨c, cs, hcs, hc⟩ := formatInt_head i
  have hsp : skipSpace (formatInt i ++ [rbrace]) = formatInt i ++ [rbrace] := by
    rw [hcs]
    refine skipSpace_cons _ _ ?_
    rcases hc with h | h
    · rw [h]; decide
    · simp only [isDigit, Bool.and_eq_true, decide_eq_true_eq] at h
      simp only [isSpace, Bool.or_eq_false_iff, decide_eq_false_iff_not]
      omega
  have hval : parseValue (f + 1) depth (skipSpace (formatInt i ++ [rbrace])) =
      some (JValue.num (formatInt i), [rbrace]) := by
    rw [hsp]
    exact parseValue_int f depth i rbrace [] (by decide) (by decide) (by decide) (by decide)
  have := parseMembers_last f depth nm.data _ [] _ hnm hval
  simpa [fieldName] using this

theorem skipSpace_fieldName (nm : String) (rest : List Char) :
    skipSpace (fieldName nm ++ rest) = fieldName nm ++ rest :=
  skipSpace_cons _ _ (by decide)

theorem parseValue_object (f depth : Nat) (nm : String) (rest : List Char) :
    parseValue (f + 1) (depth + 1) (lbrace :: (fieldName nm ++ rest)) =
      match parseMembers f depth (fieldName nm ++ rest) with
      | none => none
      | some (ms, r) => some (JValue.obj ms, r) := by
  have hsp := skipSpace_fieldName nm rest
  have hne : dquote ≠ rbrace := by decide
  simp only [fieldName, List.cons_append] at hsp ⊢
  simp only [parseValue, if_true, hsp, hne, if_false, Nat.add_sub_cancel]
  simp only [List.append_assoc, List.cons_append, List.nil_append, Nat.succ_ne_zero,
    if_false]

theorem decodeJSON_marshalAsset (a : Asset) :
    decodeJSON (marshalAsset a) = Except.ok (assetTree a) := by
  unfold decodeJSON marshalAsset
  simp only [List.append_assoc]
  generalize hX : (fieldName "assetname" ++ (quoteString a.AssetName ++ ([','] ++
     (fieldName "assetproperty" ++ (quoteString a.AssetProperty ++ ([','] ++
     (fieldName "owner" ++ (quoteString a.Owner ++ ([','] ++
     (fieldName "assetprocessinfo" ++ (quoteString a.AssetProcessInfo ++ ([','] ++
     (fieldName "assetoriginalprice" ++ (formatInt a.AssetOriginalPrice.val ++ ([','] ++
     (fieldName "assetprocessprice" ++ (formatInt a.AssetProcessPrice.val ++ [rbrace])))))))))))))))))
     = X
  have hlen : ∃ n, (lbrace :: X).length = n + 7 := by
    refine ⟨(lbrace :: X).length - 7, ?_⟩
    have h12 : (fieldName "assetname").length = 12 := rfl
    rw [← hX]
    simp only [List.length_cons, List.length_append, h12]
    omega
  obtain ⟨n, hn⟩ := hlen
  rw [hn, skipSpace_cons lbrace X (by decide), ← hX]
  have hd : maxNestingDepth = 9999 + 1 := rfl
  rw [hd, parseValue_object,
    member_str (n + 5) 9999 _ _ _ rfl, skipSpace_fieldName,
    member_str (n + 4) 9999 _ _ _ rfl, skipSpace_fieldName,
    member_str (n + 3) 9999 _ _ _ rfl, skipSpace_fieldName,
    member_str (n + 2) 9999 _ _ _ rfl, skipSpace_fieldName,
    member_int (n + 1) 9999 _ _ _ rfl, skipSpace_fieldName,
    member_int_last n 9999 _ _ rfl]
  rfl

theorem storeString_str (s old : String) :
    storeString (JValue.str s.data) old = Except.ok s := rfl

theorem storeInt_num (n old : GoInt) :
    storeInt (JValue.num (formatInt n.val)) old = Except.ok n := by
  simp only [storeInt, parseGoInt_formatInt]

theorem storeMembers_assetTree (a : Asset) :
    storeMembers Asset.store
      [("assetname".data, JValue.str a.AssetName.data),
       ("assetproperty".data, JValue.str a.AssetProperty.data),
       ("owner".data, JValue.str a.Owner.data),
       ("assetprocessinfo".data, JValue.str a.AssetProcessInfo.data),
       ("assetoriginalprice".data, JValue.num (formatInt a.AssetOriginalPrice.val)),
       ("assetprocessprice".data, JValue.num (formatInt a.AssetProcessPrice.val))]
      Asset.zero = Except.ok a := by
  have k1 : keyMatches "assetname".data "assetname" = true := by decide
  have k21 : keyMatches "assetproperty".data "assetname" = false := by decide
  have k2 : keyMatches "assetproperty".data "assetproperty" = true := by decide
  have k31 : keyMatches "owner".data "assetname" = false := by decide
  have k32 : keyMatches "owner".data "assetproperty" = false := by decide
  have k3 : keyMatches "owner".data "owner" = true := by decide
  have k41 : keyMatches "assetprocessinfo".data "assetname" = false := by decide
  have k42 : keyMatches "assetprocessinfo".data "assetproperty" = false := by decide
  have k43 : keyMatches "assetprocessinfo".data "owner" = false := by decide
  have k4 : keyMatches "assetprocessinfo".data "assetprocessinfo" = true := by decide
  have k51 : keyMatches "assetoriginalprice".data "assetname" = false := by decide
  have k52 : keyMatches "assetoriginalprice".data "assetproperty" = false := by decide
  have k53 : keyMatches "assetoriginalprice".data "owner" = false := by decide
  have k54 : keyMatches "assetoriginalprice".data "assetprocessinfo" = false := by decide
  have k5 : keyMatches "assetoriginalprice".data "assetoriginalprice" = true := by decide
  have k61 : keyMatches "assetprocessprice".data "assetname" = false := by decide
  have k62 : keyMatches "assetprocessprice".data "assetproperty" = false := by decide
  have k63 : keyMatches "assetprocessprice".data "owner" = false := by decide
  have k64 : keyMatches "assetprocessprice".data "assetprocessinfo" = false := by decide
  have k65 : keyMatches "assetprocessprice".data "assetoriginalprice" = false := by decide
  have k6 : keyMatches "assetprocessprice".data "assetprocessprice" = true := by decide
  simp only [storeMembers, Asset.store, k1, k21, k2, k31, k32, k3, k41, k42, k43, k4,
    k51, k52, k53, k54, k5, k61, k62, k63, k64, k65, k6, if_true, if_false,
    Bool.false_eq_true, storeString_str, storeInt_num, Except.map]

theorem unmarshalAsset_marshalAsset (a : Asset) :
    unmarshalAsset (marshalAsset a) = Except.ok a := by
  unfold unmarshalAsset unmarshalWith
  rw [decodeJSON_marshalAsset]
  exact storeMembers_assetTree a

theorem decodeJSON_marshalPrivateAsset (a : PrivateAsset) :
    decodeJSON (marshalPrivateAsset a) = Except.ok (privateAssetTree a) := by
  unfold decodeJSON marshalPrivateAsset
  simp only [List.append_assoc]
  generalize hX : (fieldName "docType" ++ (quoteString a.ObjectType ++ ([','] ++
     (fieldName "assetname" ++ (quoteString a.AssetName ++ ([','] ++
     (fieldName "assetproperty" ++ (quoteString a.AssetProperty ++ ([','] ++
     (fieldName "owner" ++ (quoteString a.Owner ++ ([','] ++
     (fieldName "price" ++ (formatInt a.Price.val ++ [rbrace]))))))))))))))
     = X
  have hlen : ∃ n, (lbrace :: X).length = n + 6 := by
    refine ⟨(lbrace :: X).length - 6, ?_⟩
    have h10 : (fieldName "docType").length = 10 := rfl
    rw [← hX]
    simp only [List.length_cons, List.length_append, h10]
    omega
  obtain ⟨n, hn⟩ := hlen
  rw [hn, skipSpace_cons lbrace X (by decide), ← hX]
  have hd : maxNestingDepth = 9999 + 1 := rfl
  rw [hd, parseValue_object,
    member_str (n + 4) 9999 _ _ _ rfl, skipSpace_fieldName,
    member_str (n + 3) 9999 _ _ _ rfl, skipSpace_fieldName,
    member_str (n + 2) 9999 _ _ _ rfl, skipSpace_fieldName,
    member_str (n + 1) 9999 _ _ _ rfl, skipSpace_fieldName,
    member_int_last n 9999 _ _ rfl]
  rfl

theorem storeMembers_privateAssetTree (a : PrivateAsset) :
    storeMembers PrivateAsset.store
      [("docType".data, JValue.str a.ObjectType.data),
       ("assetname".data, JValue.str a.AssetName.data),
       ("assetproperty".data, JValue.str a.AssetProperty.data),
       ("owner".data, JValue.str a.Owner.data),
       ("price".data, JValue.num (formatInt a.Price.val))]
      PrivateAsset.zero = Except.ok a := by
  have k1 : keyMatches "docType".data "docType" = true := by decide
  have k21 : keyMatches "assetname".data "docType" = false := by decide
  have k2 : keyMatches "assetname".data "assetname" = true := by decide
  have k31 : keyMatches "assetproperty".data "docType" = false := by decide
  have k32 : keyMatches "assetproperty".data "assetname" = false := by decide
  have k3 : keyMatches "assetproperty".data "assetproperty" = true := by decide
  have k41 : keyMatches "owner".data "docType" = false := by decide
  have k42 : keyMatches "owner".data "assetname" = false := by decide
  have k43 : keyMatches "owner".data "assetproperty" = false := by decide
  have k4 : keyMatches "owner".data "owner" = true := by decide
  have k51 : keyMatches "price".data "docType" = false := by decide
  have k52 : keyMatches "price".data "assetname" = false := by decide
  have k53 : keyMatches "price".data "assetproperty" = false := by decide
  have k54 : keyMatches "price".data "owner" = false := by decide
  have k5 : keyMatches "price".data "price" = true := by decide
  simp only [storeMembers, PrivateAsset.store, k1, k21, k2, k31, k32, k3, k41, k42, k43,
    k4, k51, k52, k53, k54, k5, if_true, if_false, Bool.false_eq_true, storeString_str,
    storeInt_num, Except.map]

theorem unmarshalPrivateAsset_marshalPrivateAsset (a : PrivateAsset) :
    unmarshalPrivateAsset (marshalPrivateAsset a) = Except.ok a := by
  unfold unmarshalPrivateAsset unmarshalWith
  rw [decodeJSON_marshalPrivateAsset]
  exact storeMembers_privateAssetTree a

/-! ## The key/value table and the stub -/

theorem kvGet_kvPut_same (m : KV) (key : Key) (value : String) :
    kvGet (kvPut m key value) key.val = some value := by
  induction m with
  | nil => simp [kvPut, kvGet]
  | cons e rest ih =>
    obtain ⟨k, v⟩ := e
    unfold kvPut
    split_ifs with h1 h2
    · simp [kvGet]
    · simp [kvGet]
    · simp only [kvGet, h1, if_false]
      exact ih

theorem kvGet_kvPut_other (m : KV) (key : Key) (value other : String)
    (h : other ≠ key.val) : kvGet (kvPut m key value) other = kvGet m other := by
  induction m with
  | nil => simp [kvPut, kvGet, Ne.symm h]
  | cons e rest ih =>
    obtain ⟨k, v⟩ := e
    unfold kvPut
    split_ifs with h1 h2
    · have hk : k.val ≠ other := by rw [h1]; exact Ne.symm h
      simp [kvGet, Ne.symm h, hk]
    · simp [kvGet, Ne.symm h]
    · simp only [kvGet]
      split_ifs
      · rfl
      · exact ih

theorem kvGet_some_ne_empty (m : KV) (key value : String)
    (h : kvGet m key = some value) : key ≠ "" := by
  induction m with
  | nil => simp [kvGet] at h
  | cons e rest ih =>
    obtain ⟨k, v⟩ := e
    simp only [kvGet] at h
    split_ifs at h with hk
    · rw [← hk]; exact k.property
    · exact ih h

theorem GetState_ok (L : Ledger) (key : String) (r : Option String)
    (h : GetState L key = Except.ok r) :
    faultOf L.failing (ReadCall.getState key) = none ∧ kvGet L.world key = r := by
  unfold GetState at h
  cases hf : faultOf L.failing (ReadCall.getState key) with
  | some err => rw [hf] at h; cases h
  | none =>
    rw [hf] at h
    exact ⟨rfl, Except.ok.inj h⟩

theorem GetPrivateData_ok (L : Ledger) (key : String) (r : Option String)
    (h : GetPrivateData L key = Except.ok r) :
    faultOf L.failing (ReadCall.getPrivateData key) = none ∧ kvGet L.priv key = r := by
  unfold GetPrivateData at h
  cases hf : faultOf L.failing (ReadCall.getPrivateData key) with
  | some err => rw [hf] at h; cases h
  | none =>
    rw [hf] at h
    exact ⟨rfl, Except.ok.inj h⟩

theorem PutState_ne_empty (ctx : TxContext) (L : Ledger) (key value : String)
    (h : key ≠ "") :
    PutState ctx L key value =
      ({ L with
          world := kvPut L.world ⟨key, h⟩ value,
          history := L.history ++
            [{ EntryKey := key, Value := value, Seconds := ctx.txSeconds }] }, none) := by
  unfold PutState
  rw [dif_neg h]

theorem PutState_failed (ctx : TxContext) (L : Ledger) (key value : String)
    (h : (PutState ctx L key value).2 ≠ none) : (PutState ctx L key value).1 = L := by
  unfold PutState at h ⊢
  split_ifs at h ⊢ with hk
  · rfl
  · exact absurd rfl h

theorem PutPrivateData_ne_empty (L : Ledger) (key value : String) (h : key ≠ "") :
    PutPrivateData L key value =
      ({ L with priv := kvPut L.priv ⟨key, h⟩ value }, none) := by
  unfold PutPrivateData
  rw [dif_neg h]

theorem PutPrivateData_failed (L : Ledger) (key value : String)
    (h : (PutPrivateData L key value).2 ≠ none) : (PutPrivateData L key value).1 = L := by
  unfold PutPrivateData at h ⊢
  split_ifs at h ⊢ with hk
  · rfl
  · exact absurd rfl h

/-- After a put under a non-empty key, `GetState` of that key returns the
value, if the read of the key does not fail. -/
theorem GetState_after_put (ctx : TxContext) (L : Ledger) (key value : String)
    (hk : key ≠ "") (hf : faultOf L.failing (ReadCall.getState key) = none) :
    GetState (PutState ctx L key value).1 key = Except.ok (some value) := by
  rw [PutState_ne_empty ctx L key value hk]
  unfold GetState
  simp only [hf]
  have := kvGet_kvPut_same L.world ⟨key, hk⟩ value
  simp only at this
  rw [this]

theorem writeAsset_read (ctx : TxContext) (L : Ledger) (name : String) (a : Asset)
    (hk : name ≠ "") (hf : faultOf L.failing (ReadCall.getState name) = none) :
    (writeAsset ctx L name a).2 = none ∧
      ReadAsset (writeAsset ctx L name a).1 name = Except.ok a := by
  simp only [writeAsset]
  constructor
  · rw [PutState_ne_empty ctx L name _ hk]; rfl
  · unfold ReadAsset
    rw [GetState_after_put ctx L name _ hk hf]
    simp only [unmarshalAsset_marshalAsset]

theorem writeAsset_failing (ctx : TxContext) (L : Ledger) (name : String) (a : Asset) :
    (writeAsset ctx L name a).1.failing = L.failing := by
  simp only [writeAsset, PutState]
  split_ifs <;> rfl

theorem CreateAsset_absent (ctx : TxContext) (L : Ledger) (name property owner : String)
    (habsent : GetState L name = Except.ok none) :
    CreateAsset ctx L name property owner =
      writeAsset ctx L name
        { AssetName := name, AssetProperty := property, Owner := owner,
          AssetProcessInfo := "", AssetOriginalPrice := GoInt.zero,
          AssetProcessPrice := GoInt.zero } := by
  unfold CreateAsset AssetExists writeAsset
  rw [habsent]
  rfl

theorem CreateAsset_present (ctx : TxContext) (L : Ledger) (name property owner v : String)
    (h : GetState L name = Except.ok (some v)) :
    CreateAsset ctx L name property owner = (L, some (ChainError.assetExists name)) := by
  unfold CreateAsset AssetExists
  rw [h]
  rfl

/-! ## The claims -/

/-- C1: on a store with no value at key `name`, for a non-empty name,
`CreateAsset(name, property, owner)` returns no error and a following
`ReadAsset(name)` returns exactly the record with the three arguments, empty
processing info and both prices zero. -/
theorem C1_create_then_read (ctx : TxContext) (L : Ledger)
    (name property owner : String) (hname : name ≠ "")
    (habsent : GetState L name = Except.ok none) :
    (CreateAsset ctx L name property owner).2 = none ∧
    ReadAsset (CreateAsset ctx L name property owner).1 name =
      Except.ok
        { AssetName := name, AssetProperty := property, Owner := owner,
          AssetProcessInfo := "", AssetOriginalPrice := GoInt.zero,
          AssetProcessPrice := GoInt.zero } := by
  rw [CreateAsset_absent ctx L name property owner habsent]
  exact writeAsset_read ctx L name _ hname (GetState_ok L name none habsent).1

set_option maxRecDepth 100000 in
/-- C1 at a concrete store: creating "A1" on the empty store and reading it back. -/
theorem C1_create_then_read_witness :
    (CreateAsset plainTx emptyLedger "A1" "apple" "farm").2 = none ∧
    ReadAsset (CreateAsset plainTx emptyLedger "A1" "apple" "farm").1 "A1" =
      Except.ok
        { AssetName := "A1", AssetProperty := "apple", Owner := "farm",
          AssetProcessInfo := "", AssetOriginalPrice := GoInt.zero,
          AssetProcessPrice := GoInt.zero } :=
  C1_create_then_read plainTx emptyLedger "A1" "apple" "farm" (by decide) (by decide)

/-- C2: on a store whose read of `name` succeeds, `CreateAsset(name, ...)`
fails with an error of class AlreadyExists exactly when a value is present at
key `name`, and that error is "the asset name already exists"; after a
successful first `CreateAsset`, a second one with the same name and any
property and owner fails with that error, leaves the store as it is, and
`ReadAsset(name)` still returns the record of the first call. -/
theorem C2_create_twice (ctx : TxContext) (L : Ledger) (name property owner : String)
    (hread : ∃ r, GetState L name = Except.ok r) :
    ((∃ e, (CreateAsset ctx L name property owner).2 = some e ∧
        e.kind = ErrorKind.AlreadyExists) ↔ ∃ v, kvGet L.world name = some v) ∧
    ((∃ v, kvGet L.world name = some v) →
      CreateAsset ctx L name property owner = (L, some (ChainError.assetExists name))) ∧
    ((CreateAsset ctx L name property owner).2 = none →
      ∀ (ctx2 : TxContext) (property2 owner2 : String),
        CreateAsset ctx2 (CreateAsset ctx L name property owner).1 name property2 owner2 =
          ((CreateAsset ctx L name property owner).1,
            some (ChainError.assetExists name)) ∧
        ReadAsset
          (CreateAsset ctx2 (CreateAsset ctx L name property owner).1 name
            property2 owner2).1 name =
          Except.ok
            { AssetName := name, AssetProperty := property, Owner := owner,
              AssetProcessInfo := "", AssetOriginalPrice := GoInt.zero,
              AssetProcessPrice := GoInt.zero }) := by
  obtain ⟨r, hr⟩ := hread
  obtain ⟨hf, hw⟩ := GetState_ok L name r hr
  have hpresent : (∃ v, kvGet L.world name = some v) →
      CreateAsset ctx L name property owner = (L, some (ChainError.assetExists name)) := by
    rintro ⟨v, hv⟩
    rw [hw] at hv
    rw [hv] at hr
    exact CreateAsset_present ctx L name property owner v hr
  refine ⟨⟨?_, ?_⟩, hpresent, ?_⟩
  · rintro ⟨e, he, hk⟩
    cases r with
    | some v => exact ⟨v, hw⟩
    | none =>
      exfalso
      rw [CreateAsset_absent ctx L name property owner hr] at he
      simp only [writeAsset] at he
      cases hp : (PutState ctx L name _).2 with
      | none => rw [hp] at he; cases he
      | some err =>
        rw [hp] at he
        simp only [Option.map_some', Option.some.injEq] at he
        rw [← he] at hk
        cases hk
  · intro hv
    rw [hpresent hv]
    exact ⟨_, rfl, rfl⟩
  · intro hok ctx2 property2 owner2
    cases r with
    | some v =>
      rw [CreateAsset_present ctx L name property owner v hr] at hok
      cases hok
    | none =>
      have hne : name ≠ "" := by
        intro h0
        rw [CreateAsset_absent ctx L name property owner hr] at hok
        simp only [writeAsset, PutState, h0, dite_true] at hok
        cases hok
      have hc := CreateAsset_absent ctx L name property owner hr
      have hwr := writeAsset_read ctx L name
        { AssetName := name, AssetProperty := property, Owner := owner,
          AssetProcessInfo := "", AssetOriginalPrice := GoInt.zero,
          AssetProcessPrice := GoInt.zero } hne hf
      rw [← hc] at hwr
      have hget : GetState (CreateAsset ctx L name property owner).1 name =
          Except.ok (some (marshalAsset
            { AssetName := name, AssetProperty := property, Owner := owner,
              AssetProcessInfo := "", AssetOriginalPrice := GoInt.zero,
              AssetProcessPrice := GoInt.zero })) := by
        rw [hc]
        simp only [writeAsset]
        exact GetState_after_put ctx L name _ hne hf
      have h2 := CreateAsset_present ctx2 _ name property2 owner2 _ hget
      rw [h2]
      exact ⟨rfl, hwr.2⟩

set_option maxRecDepth 100000 in
/-- C2 at a concrete store: the second creation of "A1" is refused. -/
theorem C2_create_twice_witness :
    CreateAsset plainTx (CreateAsset plainTx emptyLedger "A1" "apple" "farm").1
        "A1" "pear" "shop" =
      ((CreateAsset plainTx emptyLedger "A1" "apple" "farm").1,
        some (ChainError.assetExists "A1")) :=
  ((C2_create_twice plainTx emptyLedger "A1" "apple" "farm" ⟨none, by decide⟩).2.2
    (by decide) plainTx "pear" "shop").1

/-- C3: for a name with no value at its key in the public store and no
commitment hash in the restricted collection, `ReadAsset`, `GetHistory` and
`GetPrivateAssetHash` each return an error of class NotFound and no value. -/
theorem C3_not_found (render : Int → String) (hashOf : String → String) (L : Ledger)
    (name : String) (hpub : GetState L name = Except.ok none)
    (hhash : GetPrivateDataHash hashOf L name = Except.ok none) :
    ReadAsset L name = Except.error (ChainError.assetMissing name) ∧
    GetHistory render L name = Except.error (ChainError.assetMissing name) ∧
    GetPrivateAssetHash hashOf L name = Except.error (ChainError.hashMissing name) ∧
    (ChainError.assetMissing name).kind = ErrorKind.NotFound ∧
    (ChainError.hashMissing name).kind = ErrorKind.NotFound := by
  refine ⟨?_, ?_, ?_, rfl, rfl⟩
  · unfold ReadAsset
    rw [hpub]
  · unfold GetHistory AssetExists
    rw [hpub]
    rfl
  · unfold GetPrivateAssetHash
    rw [hhash]

/-- C3 at a concrete store: the name "ghost" on the empty store. -/
theorem C3_not_found_witness :
    ReadAsset emptyLedger "ghost" = Except.error (ChainError.assetMissing "ghost") ∧
    GetHistory (fun _ => "") emptyLedger "ghost" =
      Except.error (ChainError.assetMissing "ghost") ∧
    GetPrivateAssetHash (fun s => s) emptyLedger "ghost" =
      Except.error (ChainError.hashMissing "ghost") :=
  have h := C3_not_found (fun _ => "") (fun s => s) emptyLedger "ghost" rfl rfl
  ⟨h.1, h.2.1, h.2.2.1⟩

theorem SellOriginalAsset_present (ctx : TxContext) (L : Ledger) (name newowner : String)
    (price : GoInt) (bytes : String) (r : Asset)
    (hget : GetState L name = Except.ok (some bytes))
    (hdec : unmarshalAsset bytes = Except.ok r) :
    SellOriginalAsset ctx L name newowner price =
      writeAsset ctx L name { r with Owner := newowner, AssetOriginalPrice := price } := by
  unfold SellOriginalAsset ReadAsset
  rw [hget]
  simp only [hdec]
  rfl

theorem writeAsset_GetState (ctx : TxContext) (L : Ledger) (name : String) (a : Asset)
    (hk : name ≠ "") (hf : faultOf L.failing (ReadCall.getState name) = none) :
    GetState (writeAsset ctx L name a).1 name = Except.ok (some (marshalAsset a)) := by
  simp only [writeAsset]
  exact GetState_after_put ctx L name _ hk hf

/-- C4: on a store holding a decodable record `r` at key `name`, for every
new owner and every Go `int` price (zero and negative ones too),
`SellOriginalAsset(name, newOwner, price)` returns no error and `ReadAsset(name)`
afterwards returns `r` with `Owner` and `AssetOriginalPrice` replaced and the
four other fields as they were; after a sale to "B" at 100 and one to "C" at
200 the record shows owner "C" and original price 200. -/
theorem C4_sell_original (ctx : TxContext) (L : Ledger) (name newOwner : String)
    (price : GoInt) (bytes : String) (r : Asset)
    (hget : GetState L name = Except.ok (some bytes))
    (hdec : unmarshalAsset bytes = Except.ok r) :
    (SellOriginalAsset ctx L name newOwner price).2 = none ∧
    ReadAsset (SellOriginalAsset ctx L name newOwner price).1 name =
      Except.ok
        { AssetName := r.AssetName, AssetProperty := r.AssetProperty, Owner := newOwner,
          AssetProcessInfo := r.AssetProcessInfo, AssetOriginalPrice := price,
          AssetProcessPrice := r.AssetProcessPrice } ∧
    ∀ (ctx1 ctx2 : TxContext),
      (SellOriginalAsset ctx2 (SellOriginalAsset ctx1 L name "B" int100).1 name "C"
        int200).2 = none ∧
      ReadAsset
        (SellOriginalAsset ctx2 (SellOriginalAsset ctx1 L name "B" int100).1 name "C"
          int200).1 name =
        Except.ok
          { AssetName := r.AssetName, AssetProperty := r.AssetProperty, Owner := "C",
            AssetProcessInfo := r.AssetProcessInfo, AssetOriginalPrice := int200,
            AssetProcessPrice := r.AssetProcessPrice } := by
  obtain ⟨hf, hw⟩ := GetState_ok L name _ hget
  have hne : name ≠ "" := kvGet_some_ne_empty L.world name bytes hw
  have key : ∀ (c : TxContext) (o : String) (p : GoInt),
      (SellOriginalAsset c L name o p).2 = none ∧
      ReadAsset (SellOriginalAsset c L name o p).1 name =
        Except.ok { r with Owner := o, AssetOriginalPrice := p } := by
    intro c o p
    rw [SellOriginalAsset_present c L name o p bytes r hget hdec]
    exact writeAsset_read c L name _ hne hf
  refine ⟨(key ctx newOwner price).1, (key ctx newOwner price).2, ?_⟩
  intro ctx1 ctx2
  have h1 := SellOriginalAsset_present ctx1 L name "B" int100 bytes r hget hdec
  have hg1 := writeAsset_GetState ctx1 L name
    { r with Owner := "B", AssetOriginalPrice := int100 } hne hf
  have hf1 := writeAsset_failing ctx1 L name
    { r with Owner := "B", AssetOriginalPrice := int100 }
  rw [h1]
  rw [SellOriginalAsset_present ctx2 _ name "C" int200 _ _ hg1
    (unmarshalAsset_marshalAsset _)]
  exact writeAsset_read ctx2 _ name _ hne (by rw [hf1]; exact hf)

set_option maxRecDepth 100000 in
/-- C4 at a concrete store: "A1" created on the empty store and sold at a
negative price. -/
theorem C4_sell_original_witness :
    (SellOriginalAsset plainTx (CreateAsset plainTx emptyLedger "A1" "apple" "farm").1
      "A1" "B" ⟨-7, by decide⟩).2 = none ∧
    ReadAsset
      (SellOriginalAsset plainTx (CreateAsset plainTx emptyLedger "A1" "apple" "farm").1
        "A1" "B" ⟨-7, by decide⟩).1 "A1" =
      Except.ok
        { AssetName := "A1", AssetProperty := "apple", Owner := "B",
          AssetProcessInfo := "", AssetOriginalPrice := ⟨-7, by decide⟩,
          AssetProcessPrice := GoInt.zero } :=
  have h := C4_sell_original plainTx
    (CreateAsset plainTx emptyLedger "A1" "apple" "farm").1 "A1" "B" ⟨-7, by decide⟩
    (marshalAsset
      { AssetName := "A1", AssetProperty := "apple", Owner := "farm",
        AssetProcessInfo := "", AssetOriginalPrice := GoInt.zero,
        AssetProcessPrice := GoInt.zero })
    { AssetName := "A1", AssetProperty := "apple", Owner := "farm",
      AssetProcessInfo := "", AssetOriginalPrice := GoInt.zero,
      AssetProcessPrice := GoInt.zero }
    (by decide) (by decide)
  ⟨h.1, h.2.1⟩

theorem length_eq_zero_iff (s : String) : s.length = 0 ↔ s = "" := by
  constructor
  · intro h
    have hd : s.data = [] := List.length_eq_zero.mp h
    exact String.ext hd
  · intro h; rw [h]; rfl

/-- The validation outcome of `PrivateDeal` on a decoded input. -/
theorem PrivateDeal_decoded (ctx : TxContext) (L : Ledger)
    (transMap : List (String × String)) (payload : String)
    (input : scassetTransientInput)
    (ht : ctx.transient = Except.ok transMap)
    (hp : mapGet transMap "scprivasset" = some payload)
    (hd : unmarshalTransientInput payload = Except.ok input) :
    PrivateDeal ctx L =
      if input.AssetName.length = 0 then (L, some (ChainError.emptyField "assetname"))
      else if input.AssetProperty.length = 0 then
        (L, some (ChainError.emptyField "assetproperty"))
      else if input.Owner.length = 0 then (L, some (ChainError.emptyField "owner"))
      else if input.Price.val ≤ 0 then (L, some ChainError.nonPositivePrice)
      else
        match GetPrivateData L input.AssetName with
        | Except.error err => (L, some (ChainError.getPrivate err))
        | Except.ok (some _) => (L, some (ChainError.privateExists input.AssetName))
        | Except.ok none =>
          ((PutPrivateData L input.AssetName
              (marshalPrivateAsset
                { ObjectType := "SCPrivAsset", AssetName := input.AssetName,
                  AssetProperty := input.AssetProperty, Owner := input.Owner,
                  Price := input.Price })).1,
           (PutPrivateData L input.AssetName
              (marshalPrivateAsset
                { ObjectType := "SCPrivAsset", AssetName := input.AssetName,
                  AssetProperty := input.AssetProperty, Owner := input.Owner,
                  Price := input.Price })).2.map ChainError.putPrivate) := by
  unfold PrivateDeal
  rw [ht]
  simp only [hp, hd]

/-- What `PrivateDeal` does once its input has passed validation. -/
theorem PrivateDeal_valid (ctx : TxContext) (L : Ledger)
    (transMap : List (String × String)) (payload : String)
    (input : scassetTransientInput)
    (ht : ctx.transient = Except.ok transMap)
    (hp : mapGet transMap "scprivasset" = some payload)
    (hd : unmarshalTransientInput payload = Except.ok input)
    (hvalid : input.AssetName ≠ "" ∧ input.AssetProperty ≠ "" ∧ input.Owner ≠ "" ∧
      0 < input.Price.val) :
    PrivateDeal ctx L =
      match GetPrivateData L input.AssetName with
      | Except.error err => (L, some (ChainError.getPrivate err))
      | Except.ok (some _) => (L, some (ChainError.privateExists input.AssetName))
      | Except.ok none =>
        ({ L with
            priv := kvPut L.priv ⟨input.AssetName, hvalid.1⟩
                      (marshalPrivateAsset
                        { ObjectType := "SCPrivAsset", AssetName := input.AssetName,
                          AssetProperty := input.AssetProperty, Owner := input.Owner,
                          Price := input.Price }) }, none) := by
  rw [PrivateDeal_decoded ctx L transMap payload input ht hp hd]
  obtain ⟨h1, h2, h3, h4⟩ := hvalid
  rw [if_neg (fun h => h1 ((length_eq_zero_iff _).mp h)),
    if_neg (fun h => h2 ((length_eq_zero_iff _).mp h)),
    if_neg (fun h => h3 ((length_eq_zero_iff _).mp h)),
    if_neg (not_le.mpr h4)]
  rw [PutPrivateData_ne_empty L input.AssetName _ h1]
  rfl

/-- C5: for a well-formed transient payload under key "scprivasset",
`PrivateDeal` fails with an error of class ValidationError exactly when the
name is empty, or the property is empty, or the owner is empty, or the price
is not positive; then the store is left as it is and the same error is
returned whatever the store holds; in particular a price that is zero or
negative is rejected with a ValidationError and nothing is written. -/
theorem C5_private_deal_validation (ctx : TxContext) (L : Ledger)
    (transMap : List (String × String)) (payload : String)
    (input : scassetTransientInput)
    (ht : ctx.transient = Except.ok transMap)
    (hp : mapGet transMap "scprivasset" = some payload)
    (hd : unmarshalTransientInput payload = Except.ok input) :
    ((∃ e, (PrivateDeal ctx L).2 = some e ∧ e.isValidation = true) ↔
      (input.AssetName = "" ∨ input.AssetProperty = "" ∨ input.Owner = "" ∨
        input.Price.val ≤ 0)) ∧
    ((input.AssetName = "" ∨ input.AssetProperty = "" ∨ input.Owner = "" ∨
        input.Price.val ≤ 0) →
      (PrivateDeal ctx L).1 = L ∧
      ∀ L2 : Ledger, (PrivateDeal ctx L2).2 = (PrivateDeal ctx L).2) ∧
    (input.Price.val ≤ 0 →
      (∃ e, (PrivateDeal ctx L).2 = some e ∧ e.isValidation = true) ∧
      (PrivateDeal ctx L).1 = L) := by
  have hform := fun M => PrivateDeal_decoded ctx M transMap payload input ht hp hd
  have hinvalid : (input.AssetName = "" ∨ input.AssetProperty = "" ∨ input.Owner = "" ∨
      input.Price.val ≤ 0) →
      ∃ e, e.isValidation = true ∧ ∀ M : Ledger, PrivateDeal ctx M = (M, some e) := by
    intro h
    by_cases h1 : input.AssetName.length = 0
    · exact ⟨ChainError.emptyField "assetname", rfl,
        fun M => by rw [hform M, if_pos h1]⟩
    by_cases h2 : input.AssetProperty.length = 0
    · exact ⟨ChainError.emptyField "assetproperty", rfl,
        fun M => by rw [hform M, if_neg h1, if_pos h2]⟩
    by_cases h3 : input.Owner.length = 0
    · exact ⟨ChainError.emptyField "owner", rfl,
        fun M => by rw [hform M, if_neg h1, if_neg h2, if_pos h3]⟩
    by_cases h4 : input.Price.val ≤ 0
    · exact ⟨ChainError.nonPositivePrice, rfl, fun M => by
        rw [hform M, if_neg h1, if_neg h2, if_neg h3, if_pos h4]⟩
    · exfalso
      rcases h with h | h | h | h
      · exact h1 ((length_eq_zero_iff _).mpr h)
      · exact h2 ((length_eq_zero_iff _).mpr h)
      · exact h3 ((length_eq_zero_iff _).mpr h)
      · exact h4 h
  refine ⟨⟨?_, ?_⟩, ?_, ?_⟩
  · rintro ⟨e, he, hv⟩
    by_contra hcon
    push_neg at hcon
    obtain ⟨h1, h2, h3, h4⟩ := hcon
    rw [PrivateDeal_valid ctx L transMap payload input ht hp hd ⟨h1, h2, h3, h4⟩] at he
    cases hg : GetPrivateData L input.AssetName with
    | error err =>
      rw [hg] at he
      simp only [Option.some.injEq] at he
      rw [← he] at hv
      cases hv
    | ok o =>
      cases o with
      | none => rw [hg] at he; cases he
      | some v =>
        rw [hg] at he
        simp only [Option.some.injEq] at he
        rw [← he] at hv
        cases hv
  · intro h
    obtain ⟨e, hv, hall⟩ := hinvalid h
    exact ⟨e, by rw [hall L], hv⟩
  · intro h
    obtain ⟨e, hv, hall⟩ := hinvalid h
    refine ⟨by rw [hall L], fun L2 => by rw [hall L2, hall L]⟩
  · intro h
    obtain ⟨e, hv, hall⟩ := hinvalid (Or.inr (Or.inr (Or.inr h)))
    exact ⟨⟨e, by rw [hall L], hv⟩, by rw [hall L]⟩

set_option maxRecDepth 100000 in
/-- C5 at a concrete transaction: a payload whose price is 0 is rejected and
the store stays empty. -/
theorem C5_private_deal_validation_witness :
    (∃ e, (PrivateDeal freeTx emptyLedger).2 = some e ∧ e.isValidation = true) ∧
    (PrivateDeal freeTx emptyLedger).1 = emptyLedger :=
  (C5_private_deal_validation freeTx emptyLedger [("scprivasset", freePayload)]
    freePayload
    { AssetName := "P1", AssetProperty := "fresh", Owner := "Ann", Price := GoInt.zero }
    rfl rfl (by decide)).2.2 (by decide)

/-- C6: when the transient map has no entry under "scprivasset", whatever
else it holds and whatever the store holds, `PrivateDeal` fails with the error
of class MissingTransientData and leaves the store as it is; when the entry
is present and its bytes do not decode, it fails with an error of class
DeserializationError and leaves the store as it is. -/
theorem C6_private_deal_transient (ctx : TxContext) (L : Ledger)
    (transMap : List (String × String))
    (ht : ctx.transient = Except.ok transMap) :
    (mapGet transMap "scprivasset" = none →
      PrivateDeal ctx L = (L, some ChainError.transientMissing)) ∧
    (∀ (payload : String) (e : JsonError),
      mapGet transMap "scprivasset" = some payload →
      unmarshalTransientInput payload = Except.error e →
      PrivateDeal ctx L = (L, some (ChainError.unmarshalFailed e))) ∧
    ChainError.transientMissing.kind = ErrorKind.MissingTransientData ∧
    (∀ e : JsonError,
      (ChainError.unmarshalFailed e).kind = ErrorKind.DeserializationError) := by
  refine ⟨?_, ?_, rfl, fun _ => rfl⟩
  · intro hnone
    unfold PrivateDeal
    rw [ht]
    simp only [hnone]
  · intro payload e hp hd
    unfold PrivateDeal
    rw [ht]
    simp only [hp, hd]

set_option maxRecDepth 100000 in
/-- C6 at two concrete transactions: one without the entry, one whose entry
is no JSON text. -/
theorem C6_private_deal_transient_witness :
    PrivateDeal plainTx emptyLedger = (emptyLedger, some ChainError.transientMissing) ∧
    PrivateDeal brokenTx emptyLedger =
      (emptyLedger, some (ChainError.unmarshalFailed JsonError.syntaxError)) :=
  ⟨(C6_private_deal_transient plainTx emptyLedger [] rfl).1 rfl,
   (C6_private_deal_transient brokenTx emptyLedger [("scprivasset", "price=5")] rfl).2.1
      "price=5" JsonError.syntaxError rfl (by decide)⟩

theorem GetPrivateData_after_put (L : Ledger) (key : Key) (value : String)
    (hf : faultOf L.failing (ReadCall.getPrivateData key.val) = none) :
    GetPrivateData { L with priv := kvPut L.priv key value } key.val =
      Except.ok (some value) := by
  unfold GetPrivateData
  simp only [hf, kvGet_kvPut_same]

/-- C7: for a well-formed transient payload that passes validation and a
restricted collection with no value under its name, `PrivateDeal` returns no
error and a following `ReadAssetPrivate(name)` returns exactly the record
with the tag "SCPrivAsset" and the four values of the payload. -/
theorem C7_private_deal_then_read (ctx : TxContext) (L : Ledger)
    (transMap : List (String × String)) (payload : String)
    (input : scassetTransientInput)
    (ht : ctx.transient = Except.ok transMap)
    (hp : mapGet transMap "scprivasset" = some payload)
    (hd : unmarshalTransientInput payload = Except.ok input)
    (hvalid : input.AssetName ≠ "" ∧ input.AssetProperty ≠ "" ∧ input.Owner ≠ "" ∧
      0 < input.Price.val)
    (habsent : GetPrivateData L input.AssetName = Except.ok none) :
    (PrivateDeal ctx L).2 = none ∧
    ReadAssetPrivate (PrivateDeal ctx L).1 input.AssetName =
      Except.ok
        { ObjectType := "SCPrivAsset", AssetName := input.AssetName,
          AssetProperty := input.AssetProperty, Owner := input.Owner,
          Price := input.Price } := by
  rw [PrivateDeal_valid ctx L transMap payload input ht hp hd hvalid, habsent]
  refine ⟨rfl, ?_⟩
  unfold ReadAssetPrivate
  have hf := (GetPrivateData_ok L _ _ habsent).1
  have := GetPrivateData_after_put L ⟨input.AssetName, hvalid.1⟩
    (marshalPrivateAsset
      { ObjectType := "SCPrivAsset", AssetName := input.AssetName,
        AssetProperty := input.AssetProperty, Owner := input.Owner,
        Price := input.Price }) hf
  simp only at this
  simp only [this, unmarshalPrivateAsset_marshalPrivateAsset]

set_option maxRecDepth 100000 in
/-- C7 at a concrete transaction: the deal "P1" on the empty store. -/
theorem C7_private_deal_then_read_witness :
    (PrivateDeal dealTx emptyLedger).2 = none ∧
    ReadAssetPrivate (PrivateDeal dealTx emptyLedger).1 "P1" =
      Except.ok
        { ObjectType := "SCPrivAsset", AssetName := "P1", AssetProperty := "fresh",
          Owner := "Ann", Price := int5 } :=
  C7_private_deal_then_read dealTx emptyLedger [("scprivasset", dealPayload)] dealPayload
    { AssetName := "P1", AssetProperty := "fresh", Owner := "Ann", Price := int5 }
    rfl rfl (by decide) (by decide) (by decide)

/-- The two outcomes of `PrivateDeal` on the store: it is left as it is, or
one value is written under a key that had none and no error is returned. -/
theorem PrivateDeal_cases (ctx : TxContext) (L : Ledger) :
    (PrivateDeal ctx L).1 = L ∨
    ∃ (k : Key) (v : String), kvGet L.priv k.val = none ∧
      PrivateDeal ctx L = ({ L with priv := kvPut L.priv k v }, none) := by
  unfold PrivateDeal
  cases ctx.transient with
  | error err => exact Or.inl rfl
  | ok transMap =>
    simp only []
    cases mapGet transMap "scprivasset" with
    | none => exact Or.inl rfl
    | some payload =>
      simp only []
      cases unmarshalTransientInput payload with
      | error e => exact Or.inl rfl
      | ok input =>
        simp only []
        split_ifs with h1 h2 h3 h4
        · exact Or.inl rfl
        · exact Or.inl rfl
        · exact Or.inl rfl
        · exact Or.inl rfl
        · cases hg : GetPrivateData L input.AssetName with
          | error err => exact Or.inl rfl
          | ok o =>
            cases o with
            | some v => exact Or.inl rfl
            | none =>
              have hne : input.AssetName ≠ "" := by
                intro h0; apply h1; rw [h0]; rfl
              refine Or.inr ⟨⟨input.AssetName, hne⟩,
                marshalPrivateAsset
                  { ObjectType := "SCPrivAsset", AssetName := input.AssetName,
                    AssetProperty := input.AssetProperty, Owner := input.Owner,
                    Price := input.Price },
                (GetPrivateData_ok L _ _ hg).2, ?_⟩
              simp only [PutPrivateData_ne_empty L input.AssetName _ hne]
              rfl

theorem PrivateDeal_keeps (ctx : TxContext) (L : Ledger) (name value : String)
    (h : kvGet L.priv name = some value) :
    kvGet (PrivateDeal ctx L).1.priv name = some value := by
  rcases PrivateDeal_cases ctx L with h1 | ⟨k, v, hk, h2⟩
  · rw [h1]; exact h
  · rw [h2]
    have hne : name ≠ k.val := by
      intro h0; rw [h0, hk] at h; cases h
    simp only [kvGet_kvPut_other L.priv k v name hne, h]

theorem execPrivate_keeps (hashOf : String → String) (ctx : TxContext) (L : Ledger)
    (call : PrivateCall) (name value : String) (h : kvGet L.priv name = some value) :
    kvGet (execPrivate hashOf ctx L call).1.priv name = some value := by
  cases call with
  | PrivateDeal => exact PrivateDeal_keeps ctx L name value h
  | ReadAssetPrivate n => exact h
  | GetAllPrivateAssets => exact h
  | GetPrivateAssetHash n => exact h

theorem runPrivate_keeps (hashOf : String → String) (calls : List (TxContext × PrivateCall))
    (name value : String) : ∀ L : Ledger, kvGet L.priv name = some value →
    kvGet (runPrivate hashOf calls L).priv name = some value := by
  induction calls with
  | nil => intro L h; exact h
  | cons c rest ih =>
    intro L h
    obtain ⟨ctx, call⟩ := c
    exact ih _ (execPrivate_keeps hashOf ctx L call name value h)

theorem PrivateDeal_existing (ctx : TxContext) (L : Ledger)
    (transMap : List (String × String)) (payload : String)
    (input : scassetTransientInput) (value : String)
    (ht : ctx.transient = Except.ok transMap)
    (hp : mapGet transMap "scprivasset" = some payload)
    (hd : unmarshalTransientInput payload = Except.ok input)
    (hvalid : input.AssetName ≠ "" ∧ input.AssetProperty ≠ "" ∧ input.Owner ≠ "" ∧
      0 < input.Price.val)
    (hget : GetPrivateData L input.AssetName = Except.ok (some value)) :
    PrivateDeal ctx L = (L, some (ChainError.privateExists input.AssetName)) := by
  unfold PrivateDeal
  rw [ht]
  simp only [hp, hd]
  obtain ⟨h1, h2, h3, h4⟩ := hvalid
  have e1 : ¬ input.AssetName.length = 0 := fun h => h1 (String.ext (List.length_eq_zero.mp h))
  have e2 : ¬ input.AssetProperty.length = 0 :=
    fun h => h2 (String.ext (List.length_eq_zero.mp h))
  have e3 : ¬ input.Owner.length = 0 := fun h => h3 (String.ext (List.length_eq_zero.mp h))
  rw [if_neg e1, if_neg e2, if_neg e3, if_neg (not_le.mpr h4)]
  simp only [hget]

/-- C8: private records are immutable. Along every sequence of calls of the
private contract, with any arguments and transient inputs, a value stored
under a name in the restricted collection stays the value under that name;
and a `PrivateDeal` whose validated payload names a record that the
collection holds and returns on `GetPrivateData` fails with the error of
class AlreadyExists and leaves the store as it is. -/
theorem C8_private_immutable (hashOf : String → String)
    (calls : List (TxContext × PrivateCall)) (L : Ledger) (name value : String)
    (hstored : kvGet L.priv name = some value) :
    kvGet (runPrivate hashOf calls L).priv name = some value ∧
    (∀ (ctx : TxContext) (transMap : List (String × String)) (payload : String)
        (input : scassetTransientInput),
      ctx.transient = Except.ok transMap →
      mapGet transMap "scprivasset" = some payload →
      unmarshalTransientInput payload = Except.ok input →
      (input.AssetName ≠ "" ∧ input.AssetProperty ≠ "" ∧ input.Owner ≠ "" ∧
        0 < input.Price.val) →
      input.AssetName = name →
      faultOf L.failing (ReadCall.getPrivateData name) = none →
      PrivateDeal ctx L = (L, some (ChainError.privateExists name)) ∧
      (ChainError.privateExists name).kind = ErrorKind.AlreadyExists) := by
  refine ⟨runPrivate_keeps hashOf calls name value L hstored, ?_⟩
  intro ctx transMap payload input ht hp hd hvalid hname hfault
  subst hname
  have hget : GetPrivateData L input.AssetName = Except.ok (some value) := by
    unfold GetPrivateData
    rw [hfault, hstored]
  exact ⟨PrivateDeal_existing ctx L transMap payload input value ht hp hd hvalid hget, rfl⟩

set_option maxRecDepth 100000 in
/-- C8 at a concrete run: after the deal "P1", the same deal sent again, a
read and a hash lookup leave the bytes under "P1" as they were. -/
theorem C8_private_immutable_witness :
    kvGet
      (runPrivate (fun s => s)
        [(dealTx, PrivateCall.PrivateDeal), (plainTx, PrivateCall.ReadAssetPrivate "P1"),
         (plainTx, PrivateCall.GetPrivateAssetHash "P1")]
        (PrivateDeal dealTx emptyLedger).1).priv "P1" =
      some (marshalPrivateAsset
        { ObjectType := "SCPrivAsset", AssetName := "P1", AssetProperty := "fresh",
          Owner := "Ann", Price := int5 }) :=
  (C8_private_immutable (fun s => s)
    [(dealTx, PrivateCall.PrivateDeal), (plainTx, PrivateCall.ReadAssetPrivate "P1"),
     (plainTx, PrivateCall.GetPrivateAssetHash "P1")]
    (PrivateDeal dealTx emptyLedger).1 "P1"
    (marshalPrivateAsset
      { ObjectType := "SCPrivAsset", AssetName := "P1", AssetProperty := "fresh",
        Owner := "Ann", Price := int5 })
    (by decide)).1

/-- C9: round trip of the record codec. For every `Asset` and every
`PrivateAsset` (string fields of well-formed text, prices in the range of a
Go `int`), decoding the bytes of the marshalled record succeeds and gives
back the record. -/
theorem C9_codec_round_trip :
    (∀ a : Asset, unmarshalAsset (marshalAsset a) = Except.ok a) ∧
    (∀ p : PrivateAsset, unmarshalPrivateAsset (marshalPrivateAsset p) = Except.ok p) :=
  ⟨unmarshalAsset_marshalAsset, unmarshalPrivateAsset_marshalPrivateAsset⟩

theorem writeAsset_failed (ctx : TxContext) (L : Ledger) (name : String) (a : Asset)
    (h : (writeAsset ctx L name a).2 ≠ none) : (writeAsset ctx L name a).1 = L := by
  simp only [writeAsset] at h ⊢
  apply PutState_failed
  intro h0
  rw [h0] at h
  exact h rfl

theorem CreateAsset_failed (ctx : TxContext) (L : Ledger) (name property owner : String)
    (h : (CreateAsset ctx L name property owner).2 ≠ none) :
    (CreateAsset ctx L name property owner).1 = L := by
  unfold CreateAsset at h ⊢
  cases he : AssetExists L name with
  | error err => rfl
  | ok exist =>
    rw [he] at h
    simp only [] at h ⊢
    cases exist with
    | true => rfl
    | false =>
      simp only [Bool.false_eq_true, if_false] at h ⊢
      apply PutState_failed
      intro h0
      rw [h0] at h
      exact h rfl

theorem update_failed (ctx : TxContext) (L : Ledger) (name : String) (f : Asset → Asset)
    (h : (match ReadAsset L name with
          | Except.error err => (L, some err)
          | Except.ok asset => writeAsset ctx L name (f asset)).2 ≠ none) :
    (match ReadAsset L name with
      | Except.error err => (L, some err)
      | Except.ok asset => writeAsset ctx L name (f asset)).1 = L := by
  cases hr : ReadAsset L name with
  | error err => rfl
  | ok asset =>
    rw [hr] at h
    exact writeAsset_failed ctx L name _ h

theorem PrivateDeal_failed (ctx : TxContext) (L : Ledger)
    (h : (PrivateDeal ctx L).2 ≠ none) : (PrivateDeal ctx L).1 = L := by
  rcases PrivateDeal_cases ctx L with h1 | ⟨k, v, -, h2⟩
  · exact h1
  · rw [h2] at h
    exact absurd rfl h

/-- C10: atomicity on error. For every call of either contract, every
argument list, every transaction context and every store, a call that
returns an error leaves the store (public world state, change log and
restricted collection) exactly as it was. -/
theorem C10_error_leaves_store (render : Int → String) (hashOf : String → String)
    (ctx : TxContext) (L : Ledger) :
    (∀ call : PublicCall, (execPublic render ctx L call).2 ≠ none →
      (execPublic render ctx L call).1 = L) ∧
    (∀ call : PrivateCall, (execPrivate hashOf ctx L call).2 ≠ none →
      (execPrivate hashOf ctx L call).1 = L) := by
  constructor
  · intro call h
    cases call with
    | AssetExists n => rfl
    | CreateAsset n p o => exact CreateAsset_failed ctx L n p o h
    | ReadAsset n => rfl
    | SellOriginalAsset n o p =>
      exact update_failed ctx L n
        (fun asset => { asset with Owner := o, AssetOriginalPrice := p }) h
    | ProcessAsset n i =>
      exact update_failed ctx L n (fun asset => { asset with AssetProcessInfo := i }) h
    | SellProcessedAsset n o p =>
      exact update_failed ctx L n
        (fun asset => { asset with Owner := o, AssetProcessPrice := p }) h
    | GetAllAssets => rfl
    | GetHistory n => rfl
  · intro call h
    cases call with
    | PrivateDeal => exact PrivateDeal_failed ctx L h
    | ReadAssetPrivate n => rfl
    | GetAllPrivateAssets => rfl
    | GetPrivateAssetHash n => rfl

set_option maxRecDepth 100000 in
/-- C10 at concrete calls: the refused second creation of "A1" and the
refused deal at price 0 leave their stores as they were. -/
theorem C10_error_leaves_store_witness :
    (execPublic (fun _ => "") plainTx (CreateAsset plainTx emptyLedger "A1" "apple" "farm").1
      (PublicCall.CreateAsset "A1" "pear" "shop")).1 =
      (CreateAsset plainTx emptyLedger "A1" "apple" "farm").1 ∧
    (execPrivate (fun s => s) freeTx emptyLedger PrivateCall.PrivateDeal).1 = emptyLedger :=
  ⟨(C10_error_leaves_store (fun _ => "") (fun s => s) plainTx
      (CreateAsset plainTx emptyLedger "A1" "apple" "farm").1).1
      (PublicCall.CreateAsset "A1" "pear" "shop") (by decide),
   (C10_error_leaves_store (fun _ => "") (fun s => s) freeTx emptyLedger).2
      PrivateCall.PrivateDeal (by decide)⟩

theorem ProcessAsset_present (ctx : TxContext) (L : Ledger) (name info : String)
    (bytes : String) (r : Asset)
    (hget : GetState L name = Except.ok (some bytes))
    (hdec : unmarshalAsset bytes = Except.ok r) :
    ProcessAsset ctx L name info =
      writeAsset ctx L name { r with AssetProcessInfo := info } := by
  unfold ProcessAsset ReadAsset
  rw [hget]
  simp only [hdec]
  rfl

theorem SellProcessedAsset_present (ctx : TxContext) (L : Ledger) (name newowner : String)
    (price : GoInt) (bytes : String) (r : Asset)
    (hget : GetState L name = Except.ok (some bytes))
    (hdec : unmarshalAsset bytes = Except.ok r) :
    SellProcessedAsset ctx L name newowner price =
      writeAsset ctx L name { r with Owner := newowner, AssetProcessPrice := price } := by
  unfold SellProcessedAsset ReadAsset
  rw [hget]
  simp only [hdec]
  rfl

theorem ReadAsset_absent (L : Ledger) (name : String)
    (h : GetState L name = Except.ok none) :
    ReadAsset L name = Except.error (ChainError.assetMissing name) := by
  unfold ReadAsset
  rw [h]

/-- C15: on a store holding a decodable record `r` at key `name`,
`ProcessAsset(name, info)` returns no error and `ReadAsset(name)` afterwards
returns `r` with `AssetProcessInfo` replaced by `info` and the five other
fields as they were; a second `ProcessAsset` replaces the annotation again,
it does not append to it. -/
theorem C15_process_asset (ctx : TxContext) (L : Ledger) (name info : String)
    (bytes : String) (r : Asset)
    (hget : GetState L name = Except.ok (some bytes))
    (hdec : unmarshalAsset bytes = Except.ok r) :
    (ProcessAsset ctx L name info).2 = none ∧
    ReadAsset (ProcessAsset ctx L name info).1 name =
      Except.ok
        { AssetName := r.AssetName, AssetProperty := r.AssetProperty, Owner := r.Owner,
          AssetProcessInfo := info, AssetOriginalPrice := r.AssetOriginalPrice,
          AssetProcessPrice := r.AssetProcessPrice } ∧
    ∀ (ctx2 : TxContext) (info2 : String),
      ReadAsset (ProcessAsset ctx2 (ProcessAsset ctx L name info).1 name info2).1 name =
        Except.ok
          { AssetName := r.AssetName, AssetProperty := r.AssetProperty, Owner := r.Owner,
            AssetProcessInfo := info2, AssetOriginalPrice := r.AssetOriginalPrice,
            AssetProcessPrice := r.AssetProcessPrice } := by
  obtain ⟨hf, hw⟩ := GetState_ok L name _ hget
  have hne : name ≠ "" := kvGet_some_ne_empty L.world name bytes hw
  have h1 := ProcessAsset_present ctx L name info bytes r hget hdec
  have hwr := writeAsset_read ctx L name { r with AssetProcessInfo := info } hne hf
  rw [h1]
  refine ⟨hwr.1, hwr.2, ?_⟩
  intro ctx2 info2
  have hg1 := writeAsset_GetState ctx L name { r with AssetProcessInfo := info } hne hf
  have hf1 := writeAsset_failing ctx L name { r with AssetProcessInfo := info }
  rw [ProcessAsset_present ctx2 _ name info2 _ _ hg1 (unmarshalAsset_marshalAsset _)]
  exact (writeAsset_read ctx2 _ name _ hne (by rw [hf1]; exact hf)).2

set_option maxRecDepth 100000 in
/-- C15 at a concrete store: "A1" created on the empty store and annotated. -/
theorem C15_process_asset_witness :
    (ProcessAsset plainTx (CreateAsset plainTx emptyLedger "A1" "apple" "farm").1
      "A1" "washed").2 = none ∧
    ReadAsset
      (ProcessAsset plainTx (CreateAsset plainTx emptyLedger "A1" "apple" "farm").1
        "A1" "washed").1 "A1" =
      Except.ok
        { AssetName := "A1", AssetProperty := "apple", Owner := "farm",
          AssetProcessInfo := "washed", AssetOriginalPrice := GoInt.zero,
          AssetProcessPrice := GoInt.zero } :=
  have h := C15_process_asset plainTx
    (CreateAsset plainTx emptyLedger "A1" "apple" "farm").1 "A1" "washed"
    (marshalAsset
      { AssetName := "A1", AssetProperty := "apple", Owner := "farm",
        AssetProcessInfo := "", AssetOriginalPrice := GoInt.zero,
        AssetProcessPrice := GoInt.zero })
    { AssetName := "A1", AssetProperty := "apple", Owner := "farm",
      AssetProcessInfo := "", AssetOriginalPrice := GoInt.zero,
      AssetProcessPrice := GoInt.zero }
    (by decide) (by decide)
  ⟨h.1, h.2.1⟩

/-- C16: on a store holding a decodable record `r` at key `name`, for every
new owner and every Go `int` price, `SellProcessedAsset(name, newOwner, price)`
returns no error and `ReadAsset(name)` afterwards returns `r` with `Owner` and
`AssetProcessPrice` replaced and the four other fields as they were; on a
store with no value at key `name` it fails with the error of class NotFound
and leaves the store as it is. -/
theorem C16_sell_processed (ctx : TxContext) (L : Ledger) (name newOwner : String)
    (price : GoInt) (bytes : String) (r : Asset)
    (hget : GetState L name = Except.ok (some bytes))
    (hdec : unmarshalAsset bytes = Except.ok r) :
    (SellProcessedAsset ctx L name newOwner price).2 = none ∧
    ReadAsset (SellProcessedAsset ctx L name newOwner price).1 name =
      Except.ok
        { AssetName := r.AssetName, AssetProperty := r.AssetProperty, Owner := newOwner,
          AssetProcessInfo := r.AssetProcessInfo,
          AssetOriginalPrice := r.AssetOriginalPrice, AssetProcessPrice := price } ∧
    (∀ (L2 : Ledger) (missing : String), GetState L2 missing = Except.ok none →
      SellProcessedAsset ctx L2 missing newOwner price =
        (L2, some (ChainError.assetMissing missing)) ∧
      (ChainError.assetMissing missing).kind = ErrorKind.NotFound) := by
  obtain ⟨hf, hw⟩ := GetState_ok L name _ hget
  have hne : name ≠ "" := kvGet_some_ne_empty L.world name bytes hw
  rw [SellProcessedAsset_present ctx L name newOwner price bytes r hget hdec]
  have hwr := writeAsset_read ctx L name
    { r with Owner := newOwner, AssetProcessPrice := price } hne hf
  refine ⟨hwr.1, hwr.2, ?_⟩
  intro L2 missing habs
  refine ⟨?_, rfl⟩
  unfold SellProcessedAsset
  rw [ReadAsset_absent L2 missing habs]

set_option maxRecDepth 100000 in
/-- C16 at a concrete store: "A1" created on the empty store and sold as a
processed asset. -/
theorem C16_sell_processed_witness :
    (SellProcessedAsset plainTx (CreateAsset plainTx emptyLedger "A1" "apple" "farm").1
      "A1" "D" int200).2 = none ∧
    ReadAsset
      (SellProcessedAsset plainTx (CreateAsset plainTx emptyLedger "A1" "apple" "farm").1
        "A1" "D" int200).1 "A1" =
      Except.ok
        { AssetName := "A1", AssetProperty := "apple", Owner := "D",
          AssetProcessInfo := "", AssetOriginalPrice := GoInt.zero,
          AssetProcessPrice := int200 } :=
  have h := C16_sell_processed plainTx
    (CreateAsset plainTx emptyLedger "A1" "apple" "farm").1 "A1" "D" int200
    (marshalAsset
      { AssetName := "A1", AssetProperty := "apple", Owner := "farm",
        AssetProcessInfo := "", AssetOriginalPrice := GoInt.zero,
        AssetProcessPrice := GoInt.zero })
    { AssetName := "A1", AssetProperty := "apple", Owner := "farm",
      AssetProcessInfo := "", AssetOriginalPrice := GoInt.zero,
      AssetProcessPrice := GoInt.zero }
    (by decide) (by decide)
  ⟨h.1, h.2.1⟩

/-- C14: when the range scan of the public store returns no entry,
`GetAllAssets` returns the empty sequence and no error; when the range scan
of the restricted collection returns no entry, `GetAllPrivateAssets` returns
the empty sequence and no error. -/
theorem C14_get_all_empty (L : Ledger)
    (hpub : GetStateByRange L = Except.ok [])
    (hpriv : GetPrivateDataByRange L = Except.ok []) :
    GetAllAssets L = Except.ok [] ∧ GetAllPrivateAssets L = Except.ok [] := by
  refine ⟨?_, ?_⟩
  · unfold GetAllAssets
    rw [hpub]
    rfl
  · unfold GetAllPrivateAssets
    rw [hpriv]
    rfl

/-- C14 at the empty store. -/
theorem C14_get_all_empty_witness :
    GetAllAssets emptyLedger = Except.ok [] ∧
    GetAllPrivateAssets emptyLedger = Except.ok [] :=
  C14_get_all_empty emptyLedger rfl rfl

theorem collectHistory_ok (render : Int → String) (L : Ledger)
    (hnext : ∀ i, faultOf L.failing (ReadCall.historyNext i) = none)
    (entries : List KeyModification) : ∀ i : Nat,
    collectHistory render L i entries =
      Except.ok (entries.map (fun h => render h.Seconds ++ ":" ++ h.Value)) := by
  induction entries with
  | nil => intro i; rfl
  | cons e rest ih =>
    intro i
    simp only [collectHistory, hnext i, ih (i + 1), List.map_cons]

theorem GetHistory_lines (render : Int → String) (L : Ledger) (name : String)
    (entries : List KeyModification)
    (hexists : AssetExists L name = Except.ok true)
    (hlog : GetHistoryForKey L name = Except.ok entries)
    (hnext : ∀ i, faultOf L.failing (ReadCall.historyNext i) = none) :
    GetHistory render L name =
      Except.ok (entries.map (fun h => render h.Seconds ++ ":" ++ h.Value)) := by
  unfold GetHistory
  rw [hexists]
  simp only [Bool.not_true, Bool.false_eq_true, if_false, hlog]
  exact collectHistory_ok render L hnext entries 0

/-- C12: for an existing name whose change log, as the store reports it, is
the entries `h_1 .. h_n`, `GetHistory(name)` returns exactly `n` strings in the
order of the entries, the `i`-th being `render` of the seconds of `h_i`, a
colon, and the raw value of `h_i`; `render` takes the whole seconds of the
timestamp and nothing else. -/
theorem C12_history_lines (render : Int → String) (L : Ledger) (name : String)
    (entries : List KeyModification)
    (hexists : AssetExists L name = Except.ok true)
    (hlog : GetHistoryForKey L name = Except.ok entries)
    (hnext : ∀ i, faultOf L.failing (ReadCall.historyNext i) = none) :
    ∃ lines : List String,
      GetHistory render L name = Except.ok lines ∧
      lines.length = entries.length ∧
      ∀ (i : Nat) (hi : i < entries.length) (hj : i < lines.length),
        lines.get ⟨i, hj⟩ =
          render (entries.get ⟨i, hi⟩).Seconds ++ ":" ++ (entries.get ⟨i, hi⟩).Value := by
  refine ⟨entries.map (fun h => render h.Seconds ++ ":" ++ h.Value),
    GetHistory_lines render L name entries hexists hlog hnext, by simp, ?_⟩
  intro i hi hj
  simp

set_option maxRecDepth 100000 in
/-- C12 at a concrete store: the one line of "A1" after its creation. -/
theorem C12_history_lines_witness :
    ∃ lines : List String,
      GetHistory (fun s => toString s) (CreateAsset plainTx emptyLedger "A1" "apple" "farm").1
        "A1" = Except.ok lines ∧ lines.length = 1 :=
  have h := C12_history_lines (fun s => toString s)
    (CreateAsset plainTx emptyLedger "A1" "apple" "farm").1 "A1"
    [{ EntryKey := "A1",
       Value := marshalAsset
        { AssetName := "A1", AssetProperty := "apple", Owner := "farm",
          AssetProcessInfo := "", AssetOriginalPrice := GoInt.zero,
          AssetProcessPrice := GoInt.zero },
       Seconds := 1631415845 }]
    (by decide) (by decide) (fun _ => rfl)
  Exists.elim h (fun lines hl => ⟨lines, hl.1, hl.2.1⟩)

/-- C18: for a well-formed transient payload the error of `PrivateDeal`
names the first offending field in the order assetname, assetproperty,
owner, price: an empty name is reported as the assetname error whatever the
other fields are, and the price error is returned exactly when name,
property and owner are non-empty and the price is not positive. -/
theorem C18_validation_order (ctx : TxContext) (L : Ledger)
    (transMap : List (String × String)) (payload : String)
    (input : scassetTransientInput)
    (ht : ctx.transient = Except.ok transMap)
    (hp : mapGet transMap "scprivasset" = some payload)
    (hd : unmarshalTransientInput payload = Except.ok input) :
    (input.AssetName = "" →
      (PrivateDeal ctx L).2 = some (ChainError.emptyField "assetname")) ∧
    (input.AssetName ≠ "" → input.AssetProperty = "" →
      (PrivateDeal ctx L).2 = some (ChainError.emptyField "assetproperty")) ∧
    (input.AssetName ≠ "" → input.AssetProperty ≠ "" → input.Owner = "" →
      (PrivateDeal ctx L).2 = some (ChainError.emptyField "owner")) ∧
    ((PrivateDeal ctx L).2 = some ChainError.nonPositivePrice ↔
      (input.AssetName ≠ "" ∧ input.AssetProperty ≠ "" ∧ input.Owner ≠ "" ∧
        input.Price.val ≤ 0)) ∧
    (ChainError.emptyField "assetname").kind = ErrorKind.ValidationError "assetname" ∧
    (ChainError.emptyField "assetproperty").kind =
      ErrorKind.ValidationError "assetproperty" ∧
    (ChainError.emptyField "owner").kind = ErrorKind.ValidationError "owner" ∧
    ChainError.nonPositivePrice.kind = ErrorKind.ValidationError "price" := by
  have hform := PrivateDeal_decoded ctx L transMap payload input ht hp hd
  have e (s : String) : s.length = 0 ↔ s = "" := length_eq_zero_iff s
  refine ⟨?_, ?_, ?_, ⟨?_, ?_⟩, rfl, rfl, rfl, rfl⟩
  · intro h1
    rw [hform, if_pos ((e _).mpr h1)]
  · intro h1 h2
    rw [hform, if_neg (fun h => h1 ((e _).mp h)), if_pos ((e _).mpr h2)]
  · intro h1 h2 h3
    rw [hform, if_neg (fun h => h1 ((e _).mp h)), if_neg (fun h => h2 ((e _).mp h)),
      if_pos ((e _).mpr h3)]
  · intro hres
    rw [hform] at hres
    split_ifs at hres with h1 h2 h3 h4
    · cases hres
    · cases hres
    · cases hres
    · exact ⟨fun h => h1 ((e _).mpr h), fun h => h2 ((e _).mpr h),
        fun h => h3 ((e _).mpr h), h4⟩
    · exfalso
      cases hg : GetPrivateData L input.AssetName with
      | error err => rw [hg] at hres; cases hres
      | ok o =>
        cases o with
        | some v => rw [hg] at hres; cases hres
        | none =>
          rw [hg] at hres
          simp only [] at hres
          cases hput : (PutPrivateData L input.AssetName
            (marshalPrivateAsset
              { ObjectType := "SCPrivAsset", AssetName := input.AssetName,
                AssetProperty := input.AssetProperty, Owner := input.Owner,
                Price := input.Price })).2 with
          | none => rw [hput] at hres; cases hres
          | some err => rw [hput] at hres; cases hres
  · rintro ⟨h1, h2, h3, h4⟩
    rw [hform, if_neg (fun h => h1 ((e _).mp h)), if_neg (fun h => h2 ((e _).mp h)),
      if_neg (fun h => h3 ((e _).mp h)), if_pos h4]

set_option maxRecDepth 100000 in
/-- C18 at a concrete transaction: a payload with an empty name and price 0
is reported as an assetname error. -/
theorem C18_validation_order_witness :
    (PrivateDeal namelessTx emptyLedger).2 = some (ChainError.emptyField "assetname") :=
  (C18_validation_order namelessTx emptyLedger [("scprivasset", namelessPayload)]
    namelessPayload
    { AssetName := "", AssetProperty := "fresh", Owner := "Ann", Price := GoInt.zero }
    rfl rfl (by decide)).1 rfl

theorem writeAsset_eq (ctx : TxContext) (L : Ledger) (name : String) (a : Asset)
    (h : name ≠ "") :
    writeAsset ctx L name a =
      ({ L with
          world := kvPut L.world ⟨name, h⟩ (marshalAsset a),
          history := L.history ++
            [{ EntryKey := name, Value := marshalAsset a, Seconds := ctx.txSeconds }] },
        none) := by
  simp only [writeAsset, PutState_ne_empty ctx L name _ h]
  rfl

theorem writeAsset_success (ctx : TxContext) (L : Ledger) (name : String) (a : Asset)
    (h : (writeAsset ctx L name a).2 = none) :
    (writeAsset ctx L name a).1.history =
      L.history ++
        [{ EntryKey := name, Value := marshalAsset a, Seconds := ctx.txSeconds }] := by
  by_cases hne : name = ""
  · exfalso
    simp only [writeAsset, PutState, hne, dite_true] at h
    cases h
  · rw [writeAsset_eq ctx L name a hne]

theorem writeAsset_history (ctx : TxContext) (L : Ledger) (name : String) (a : Asset)
    (h : name ≠ "") :
    (writeAsset ctx L name a).1.history =
      L.history ++
        [{ EntryKey := name, Value := marshalAsset a, Seconds := ctx.txSeconds }] := by
  rw [writeAsset_eq ctx L name a h]

theorem update_success (ctx : TxContext) (L : Ledger) (name : String) (f : Asset → Asset)
    (h : (updateAsset ctx L name f).2 = none) :
    ∃ value : String,
      (updateAsset ctx L name f).1.history =
        L.history ++ [{ EntryKey := name, Value := value, Seconds := ctx.txSeconds }] := by
  unfold updateAsset at h ⊢
  cases hr : ReadAsset L name with
  | error err => rw [hr] at h; cases h
  | ok asset =>
    rw [hr] at h
    exact ⟨_, writeAsset_success ctx L name _ h⟩

theorem CreateAsset_success (ctx : TxContext) (L : Ledger) (name property owner : String)
    (h : (CreateAsset ctx L name property owner).2 = none) :
    ∃ value : String,
      (CreateAsset ctx L name property owner).1.history =
        L.history ++ [{ EntryKey := name, Value := value, Seconds := ctx.txSeconds }] := by
  unfold CreateAsset at h ⊢
  cases he : AssetExists L name with
  | error err => rw [he] at h; cases h
  | ok exist =>
    rw [he] at h
    cases exist with
    | true => cases h
    | false => exact ⟨_, writeAsset_success ctx L name _ h⟩

theorem GetHistoryForKey_append (L M : Ledger) (name : String)
    (old extra : List KeyModification)
    (hlog : GetHistoryForKey L name = Except.ok old)
    (hfail : M.failing = L.failing)
    (hhist : M.history = L.history ++ extra)
    (hextra : ∀ m ∈ extra, m.EntryKey = name) :
    GetHistoryForKey M name = Except.ok (old ++ extra) := by
  unfold GetHistoryForKey at hlog ⊢
  rw [hfail, hhist]
  cases hf : faultOf L.failing (ReadCall.getHistoryForKey name) with
  | some err => rw [hf] at hlog; cases hlog
  | none =>
    rw [hf] at hlog
    have hold := Except.ok.inj hlog
    simp only [List.filter_append, hold]
    congr 2
    apply List.filter_eq_self.mpr
    intro m hm
    simp [hextra m hm]

/-- C11: on a store with no value and no change-log entry at `name`, after
`CreateAsset(name, ...)`, `SellOriginalAsset(name, "B", 100)` and
`SellOriginalAsset(name, "C", 200)`, `GetHistory(name)` returns exactly three
lines, in the order create, first sale, second sale, whose raw values are
the three successive marshalled records; and every successful `CreateAsset`,
`SellOriginalAsset`, `ProcessAsset` and `SellProcessedAsset` appends exactly
one entry for its name to the change log. -/
theorem C11_history_of_sales (render : Int → String) (ctx1 ctx2 ctx3 : TxContext)
    (L : Ledger) (name property owner : String) (hname : name ≠ "")
    (habsent : GetState L name = Except.ok none)
    (hlog : GetHistoryForKey L name = Except.ok [])
    (hnext : ∀ i, faultOf L.failing (ReadCall.historyNext i) = none) :
    GetHistory render
      (SellOriginalAsset ctx3
        (SellOriginalAsset ctx2 (CreateAsset ctx1 L name property owner).1 name "B"
          int100).1 name "C" int200).1 name =
      Except.ok
        [render ctx1.txSeconds ++ ":" ++
          marshalAsset
            { AssetName := name, AssetProperty := property, Owner := owner,
              AssetProcessInfo := "", AssetOriginalPrice := GoInt.zero,
              AssetProcessPrice := GoInt.zero },
         render ctx2.txSeconds ++ ":" ++
          marshalAsset
            { AssetName := name, AssetProperty := property, Owner := "B",
              AssetProcessInfo := "", AssetOriginalPrice := int100,
              AssetProcessPrice := GoInt.zero },
         render ctx3.txSeconds ++ ":" ++
          marshalAsset
            { AssetName := name, AssetProperty := property, Owner := "C",
              AssetProcessInfo := "", AssetOriginalPrice := int200,
              AssetProcessPrice := GoInt.zero }] ∧
    (∀ (ctx : TxContext) (M : Ledger) (n p o : String),
      (CreateAsset ctx M n p o).2 = none →
      ∃ value, (CreateAsset ctx M n p o).1.history =
        M.history ++ [{ EntryKey := n, Value := value, Seconds := ctx.txSeconds }]) ∧
    (∀ (ctx : TxContext) (M : Ledger) (n o : String) (p : GoInt),
      (SellOriginalAsset ctx M n o p).2 = none →
      ∃ value, (SellOriginalAsset ctx M n o p).1.history =
        M.history ++ [{ EntryKey := n, Value := value, Seconds := ctx.txSeconds }]) ∧
    (∀ (ctx : TxContext) (M : Ledger) (n i : String),
      (ProcessAsset ctx M n i).2 = none →
      ∃ value, (ProcessAsset ctx M n i).1.history =
        M.history ++ [{ EntryKey := n, Value := value, Seconds := ctx.txSeconds }]) ∧
    (∀ (ctx : TxContext) (M : Ledger) (n o : String) (p : GoInt),
      (SellProcessedAsset ctx M n o p).2 = none →
      ∃ value, (SellProcessedAsset ctx M n o p).1.history =
        M.history ++ [{ EntryKey := n, Value := value, Seconds := ctx.txSeconds }]) := by
  refine ⟨?_, fun ctx M n p o h => CreateAsset_success ctx M n p o h,
    fun ctx M n o p h => update_success ctx M n
      (fun asset => { asset with Owner := o, AssetOriginalPrice := p }) h,
    fun ctx M n i h => update_success ctx M n
      (fun asset => { asset with AssetProcessInfo := i }) h,
    fun ctx M n o p h => update_success ctx M n
      (fun asset => { asset with Owner := o, AssetProcessPrice := p }) h⟩
  have hf := (GetState_ok L name none habsent).1
  -- the three stores
  have hc := CreateAsset_absent ctx1 L name property owner habsent
  have hg1 := writeAsset_GetState ctx1 L name
    { AssetName := name, AssetProperty := property, Owner := owner,
      AssetProcessInfo := "", AssetOriginalPrice := GoInt.zero,
      AssetProcessPrice := GoInt.zero } hname hf
  have hfl1 := writeAsset_failing ctx1 L name
    { AssetName := name, AssetProperty := property, Owner := owner,
      AssetProcessInfo := "", AssetOriginalPrice := GoInt.zero,
      AssetProcessPrice := GoInt.zero }
  have hh1 := writeAsset_history ctx1 L name
    { AssetName := name, AssetProperty := property, Owner := owner,
      AssetProcessInfo := "", AssetOriginalPrice := GoInt.zero,
      AssetProcessPrice := GoInt.zero } hname
  rw [← hc] at hg1 hfl1 hh1
  generalize CreateAsset ctx1 L name property owner = R1 at hg1 hfl1 hh1
  have hs2 := SellOriginalAsset_present ctx2 R1.1 name "B" int100 _ _ hg1
    (unmarshalAsset_marshalAsset _)
  have hf1 : faultOf R1.1.failing (ReadCall.getState name) = none := by
    rw [hfl1]; exact hf
  have hg2 := writeAsset_GetState ctx2 R1.1 name
    { AssetName := name, AssetProperty := property, Owner := "B",
      AssetProcessInfo := "", AssetOriginalPrice := int100,
      AssetProcessPrice := GoInt.zero } hname hf1
  have hfl2 := writeAsset_failing ctx2 R1.1 name
    { AssetName := name, AssetProperty := property, Owner := "B",
      AssetProcessInfo := "", AssetOriginalPrice := int100,
      AssetProcessPrice := GoInt.zero }
  have hh2 := writeAsset_history ctx2 R1.1 name
    { AssetName := name, AssetProperty := property, Owner := "B",
      AssetProcessInfo := "", AssetOriginalPrice := int100,
      AssetProcessPrice := GoInt.zero } hname
  rw [hs2]
  generalize writeAsset ctx2 R1.1 name
    { AssetName := name, AssetProperty := property, Owner := "B",
      AssetProcessInfo := "", AssetOriginalPrice := int100,
      AssetProcessPrice := GoInt.zero } = R2 at hg2 hfl2 hh2
  have hs3 := SellOriginalAsset_present ctx3 R2.1 name "C" int200 _ _ hg2
    (unmarshalAsset_marshalAsset _)
  have hf2 : faultOf R2.1.failing (ReadCall.getState name) = none := by
    rw [hfl2, hfl1]; exact hf
  have hg3 := writeAsset_GetState ctx3 R2.1 name
    { AssetName := name, AssetProperty := property, Owner := "C",
      AssetProcessInfo := "", AssetOriginalPrice := int200,
      AssetProcessPrice := GoInt.zero } hname hf2
  have hfl3 := writeAsset_failing ctx3 R2.1 name
    { AssetName := name, AssetProperty := property, Owner := "C",
      AssetProcessInfo := "", AssetOriginalPrice := int200,
      AssetProcessPrice := GoInt.zero }
  have hh3 := writeAsset_history ctx3 R2.1 name
    { AssetName := name, AssetProperty := property, Owner := "C",
      AssetProcessInfo := "", AssetOriginalPrice := int200,
      AssetProcessPrice := GoInt.zero } hname
  rw [hs3]
  generalize writeAsset ctx3 R2.1 name
    { AssetName := name, AssetProperty := property, Owner := "C",
      AssetProcessInfo := "", AssetOriginalPrice := int200,
      AssetProcessPrice := GoInt.zero } = R3 at hg3 hfl3 hh3
  have hfail : R3.1.failing = L.failing := by rw [hfl3, hfl2, hfl1]
  have hhist : R3.1.history = L.history ++
      [{ EntryKey := name,
         Value := marshalAsset
          { AssetName := name, AssetProperty := property, Owner := owner,
            AssetProcessInfo := "", AssetOriginalPrice := GoInt.zero,
            AssetProcessPrice := GoInt.zero },
         Seconds := ctx1.txSeconds },
       { EntryKey := name,
         Value := marshalAsset
          { AssetName := name, AssetProperty := property, Owner := "B",
            AssetProcessInfo := "", AssetOriginalPrice := int100,
            AssetProcessPrice := GoInt.zero },
         Seconds := ctx2.txSeconds },
       { EntryKey := name,
         Value := marshalAsset
          { AssetName := name, AssetProperty := property, Owner := "C",
            AssetProcessInfo := "", AssetOriginalPrice := int200,
            AssetProcessPrice := GoInt.zero },
         Seconds := ctx3.txSeconds }] := by
    rw [hh3, hh2, hh1]
    simp
  have hlog3 := GetHistoryForKey_append L R3.1 name [] _ hlog hfail hhist
    (by
      intro m hm
      simp only [List.mem_cons, List.mem_singleton, List.not_mem_nil, or_false] at hm
      rcases hm with h | h | h <;> rw [h])
  have hex : AssetExists R3.1 name = Except.ok true := by
    unfold AssetExists
    rw [hg3]
    rfl
  have hnext3 : ∀ i, faultOf R3.1.failing (ReadCall.historyNext i) = none := by
    intro i; rw [hfail]; exact hnext i
  have := GetHistory_lines render R3.1 name _ hex hlog3 hnext3
  simpa using this

set_option maxRecDepth 100000 in
/-- C11 at a concrete store: "A1" created on the empty store and sold twice. -/
theorem C11_history_of_sales_witness :
    GetHistory (fun s => toString s)
      (SellOriginalAsset lastTx
        (SellOriginalAsset laterTx (CreateAsset plainTx emptyLedger "A1" "apple" "farm").1
          "A1" "B" int100).1 "A1" "C" int200).1 "A1" =
      Except.ok
        [(fun s => toString s) plainTx.txSeconds ++ ":" ++
          marshalAsset
            { AssetName := "A1", AssetProperty := "apple", Owner := "farm",
              AssetProcessInfo := "", AssetOriginalPrice := GoInt.zero,
              AssetProcessPrice := GoInt.zero },
         (fun s => toString s) laterTx.txSeconds ++ ":" ++
          marshalAsset
            { AssetName := "A1", AssetProperty := "apple", Owner := "B",
              AssetProcessInfo := "", AssetOriginalPrice := int100,
              AssetProcessPrice := GoInt.zero },
         (fun s => toString s) lastTx.txSeconds ++ ":" ++
          marshalAsset
            { AssetName := "A1", AssetProperty := "apple", Owner := "C",
              AssetProcessInfo := "", AssetOriginalPrice := int200,
              AssetProcessPrice := GoInt.zero }] :=
  (C11_history_of_sales (fun s => toString s) plainTx laterTx lastTx emptyLedger
    "A1" "apple" "farm" (by decide) (by decide) (by decide) (fun _ => rfl)).1

/-! ## Shape of the writers and the order of keys -/

theorem mem_kvPut (m : KV) (key : Key) (value : String) (e : Key × String)
    (h : e ∈ kvPut m key value) : e = (key, value) ∨ e ∈ m := by
  induction m with
  | nil =>
    simp only [kvPut, List.mem_singleton] at h
    exact Or.inl h
  | cons x rest ih =>
    obtain ⟨k, v⟩ := x
    unfold kvPut at h
    split_ifs at h with h1 h2
    · rcases List.mem_cons.mp h with h3 | h3
      · exact Or.inl h3
      · exact Or.inr (List.mem_cons_of_mem _ h3)
    · rcases List.mem_cons.mp h with h3 | h3
      · exact Or.inl h3
      · exact Or.inr h3
    · rcases List.mem_cons.mp h with h3 | h3
      · exact Or.inr (by rw [h3]; exact List.mem_cons_self _ _)
      · rcases ih h3 with h4 | h4
        · exact Or.inl h4
        · exact Or.inr (List.mem_cons_of_mem _ h4)

theorem kvPut_ascending (m : KV) (key : Key) (value : String) (h : KeysAscending m) :
    KeysAscending (kvPut m key value) := by
  unfold KeysAscending at h ⊢
  induction m with
  | nil => simp [kvPut]
  | cons x rest ih =>
    obtain ⟨k, v⟩ := x
    rw [List.pairwise_cons] at h
    obtain ⟨hhead, htail⟩ := h
    unfold kvPut
    split_ifs with h1 h2
    · rw [List.pairwise_cons]
      refine ⟨fun e he => ?_, htail⟩
      have := hhead e he
      simp only at this ⊢
      rw [← h1]
      exact this
    · rw [List.pairwise_cons]
      refine ⟨fun e he => ?_, List.pairwise_cons.mpr ⟨hhead, htail⟩⟩
      rcases List.mem_cons.mp he with h3 | h3
      · rw [h3]; exact h2
      · exact lt_trans h2 (hhead e h3)
    · rw [List.pairwise_cons]
      refine ⟨fun e he => ?_, ih htail⟩
      rcases mem_kvPut rest key value e he with h3 | h3
      · rw [h3]
        simp only
        rcases lt_trichotomy k.val key.val with h4 | h4 | h4
        · exact h4
        · exact absurd h4 h1
        · exact absurd h4 h2
      · exact hhead e h3

theorem kvGet_of_mem (m : KV) (h : KeysAscending m) (e : Key × String) (he : e ∈ m) :
    kvGet m e.1.val = some e.2 := by
  unfold KeysAscending at h
  induction m with
  | nil => cases he
  | cons x rest ih =>
    obtain ⟨k, v⟩ := x
    rw [List.pairwise_cons] at h
    obtain ⟨hhead, htail⟩ := h
    rcases List.mem_cons.mp he with h3 | h3
    · rw [h3]
      simp [kvGet]
    · have hlt := hhead e h3
      simp only at hlt
      have hne : k.val ≠ e.1.val := ne_of_lt hlt
      simp only [kvGet, hne, if_false]
      exact ih htail h3

theorem kvGet_mem (m : KV) (key value : String) (h : kvGet m key = some value) :
    ∃ e ∈ m, e.1.val = key ∧ e.2 = value := by
  induction m with
  | nil => simp [kvGet] at h
  | cons x rest ih =>
    obtain ⟨k, v⟩ := x
    simp only [kvGet] at h
    split_ifs at h with hk
    · exact ⟨(k, v), List.mem_cons_self _ _, hk, Option.some.inj h⟩
    · obtain ⟨e, he, h1, h2⟩ := ih h
      exact ⟨e, List.mem_cons_of_mem _ he, h1, h2⟩

/-- The two outcomes of the marshal-and-put tail. -/
theorem writeAsset_cases (ctx : TxContext) (L : Ledger) (name : String) (a : Asset) :
    (∃ e, writeAsset ctx L name a = (L, some e)) ∨
    ∃ k : Key, k.val = name ∧
      writeAsset ctx L name a =
        ({ L with
            world := kvPut L.world k (marshalAsset a),
            history := L.history ++
              [{ EntryKey := name, Value := marshalAsset a, Seconds := ctx.txSeconds }] },
          none) := by
  by_cases h : name = ""
  · left
    refine ⟨ChainError.stub "key must not be an empty string", ?_⟩
    simp only [writeAsset, PutState, h, dite_true]
    rfl
  · right
    refine ⟨⟨name, h⟩, rfl, ?_⟩
    simp only [writeAsset, PutState_ne_empty ctx L name _ h]
    rfl

/-- The outcomes of `CreateAsset`: an error with the store as it was, or the
put of the new record under a key that had no value. -/
theorem CreateAsset_shape (ctx : TxContext) (L : Ledger) (name property owner : String) :
    (∃ e, CreateAsset ctx L name property owner = (L, some e)) ∨
    (kvGet L.world name = none ∧
      CreateAsset ctx L name property owner =
        writeAsset ctx L name
          { AssetName := name, AssetProperty := property, Owner := owner,
            AssetProcessInfo := "", AssetOriginalPrice := GoInt.zero,
            AssetProcessPrice := GoInt.zero }) := by
  cases hg : GetState L name with
  | error err =>
    left
    refine ⟨ChainError.readWorldState err, ?_⟩
    unfold CreateAsset AssetExists
    rw [hg]
  | ok r =>
    cases r with
    | some v => exact Or.inl ⟨_, CreateAsset_present ctx L name property owner v hg⟩
    | none =>
      exact Or.inr ⟨(GetState_ok L name none hg).2,
        CreateAsset_absent ctx L name property owner hg⟩

theorem SellOriginalAsset_update (ctx : TxContext) (L : Ledger) (n o : String)
    (p : GoInt) :
    SellOriginalAsset ctx L n o p =
      updateAsset ctx L n
        (fun asset => { asset with Owner := o, AssetOriginalPrice := p }) := rfl

theorem ProcessAsset_update (ctx : TxContext) (L : Ledger) (n i : String) :
    ProcessAsset ctx L n i =
      updateAsset ctx L n (fun asset => { asset with AssetProcessInfo := i }) := rfl

theorem SellProcessedAsset_update (ctx : TxContext) (L : Ledger) (n o : String)
    (p : GoInt) :
    SellProcessedAsset ctx L n o p =
      updateAsset ctx L n
        (fun asset => { asset with Owner := o, AssetProcessPrice := p }) := rfl

/-- The outcomes of an update: an error with the store as it was, or the put
of the changed record under the key it was read from. -/
theorem update_shape (ctx : TxContext) (L : Ledger) (name : String) (f : Asset → Asset) :
    (∃ e, updateAsset ctx L name f = (L, some e)) ∨
    ∃ (bytes : String) (r : Asset), kvGet L.world name = some bytes ∧
      unmarshalAsset bytes = Except.ok r ∧
      updateAsset ctx L name f = writeAsset ctx L name (f r) := by
  unfold updateAsset
  cases hr : ReadAsset L name with
  | error err => exact Or.inl ⟨err, rfl⟩
  | ok asset =>
    right
    unfold ReadAsset at hr
    cases hg : GetState L name with
    | error err => rw [hg] at hr; cases hr
    | ok o =>
      cases o with
      | none => rw [hg] at hr; cases hr
      | some bytes =>
        rw [hg] at hr
        simp only [] at hr
        cases hd : unmarshalAsset bytes with
        | error e => rw [hd] at hr; cases hr
        | ok r =>
          rw [hd] at hr
          have : r = asset := Except.ok.inj hr
          subst this
          exact ⟨bytes, r, (GetState_ok L name _ hg).2, hd, rfl⟩

/-- What one call of the public contract does to the store: nothing, or one
put of a marshalled record, either a new record under a key that had no
value or a record that keeps the name and property of the one it replaces. -/
theorem execPublic_shape (render : Int → String) (ctx : TxContext) (L : Ledger)
    (call : PublicCall) :
    (execPublic render ctx L call).1 = L ∨
    ∃ (k : Key) (a : Asset),
      (execPublic render ctx L call).1 =
        { L with
            world := kvPut L.world k (marshalAsset a),
            history := L.history ++
              [{ EntryKey := k.val, Value := marshalAsset a, Seconds := ctx.txSeconds }] } ∧
      ((kvGet L.world k.val = none ∧ a.AssetName = k.val) ∨
        ∃ (bytes : String) (r : Asset), kvGet L.world k.val = some bytes ∧
          unmarshalAsset bytes = Except.ok r ∧ a.AssetName = r.AssetName ∧
          a.AssetProperty = r.AssetProperty) := by
  have upd : ∀ (n : String) (f : Asset → Asset),
      (∀ r, (f r).AssetName = r.AssetName ∧ (f r).AssetProperty = r.AssetProperty) →
      ((updateAsset ctx L n f).1 = L ∨
      ∃ (k : Key) (a : Asset),
        (updateAsset ctx L n f).1 =
          { L with
              world := kvPut L.world k (marshalAsset a),
              history := L.history ++
                [{ EntryKey := k.val, Value := marshalAsset a,
                   Seconds := ctx.txSeconds }] } ∧
        ((kvGet L.world k.val = none ∧ a.AssetName = k.val) ∨
          ∃ (bytes : String) (r : Asset), kvGet L.world k.val = some bytes ∧
            unmarshalAsset bytes = Except.ok r ∧ a.AssetName = r.AssetName ∧
            a.AssetProperty = r.AssetProperty)) := by
    intro n f hf
    rcases update_shape ctx L n f with ⟨e, he⟩ | ⟨bytes, r, hk, hd, heq⟩
    · left; rw [he]
    · rw [heq]
      rcases writeAsset_cases ctx L n (f r) with ⟨e, he⟩ | ⟨k, hkn, hw⟩
      · left; rw [he]
      · right
        refine ⟨k, f r, ?_, Or.inr ⟨bytes, r, ?_, hd, (hf r).1, (hf r).2⟩⟩
        · rw [hw, hkn]
        · rw [hkn]; exact hk
  cases call with
  | AssetExists n => exact Or.inl rfl
  | ReadAsset n => exact Or.inl rfl
  | GetAllAssets => exact Or.inl rfl
  | GetHistory n => exact Or.inl rfl
  | CreateAsset n p o =>
    show (CreateAsset ctx L n p o).1 = L ∨ _
    rcases CreateAsset_shape ctx L n p o with ⟨e, he⟩ | ⟨hk, heq⟩
    · left; rw [he]
    · rcases writeAsset_cases ctx L n
        { AssetName := n, AssetProperty := p, Owner := o,
          AssetProcessInfo := "", AssetOriginalPrice := GoInt.zero,
          AssetProcessPrice := GoInt.zero } with ⟨e, he⟩ | ⟨k, hkn, hw⟩
      · left; rw [heq, he]
      · right
        refine ⟨k,
          { AssetName := n, AssetProperty := p, Owner := o,
            AssetProcessInfo := "", AssetOriginalPrice := GoInt.zero,
            AssetProcessPrice := GoInt.zero }, ?_, Or.inl ⟨?_, hkn.symm⟩⟩
        · show (CreateAsset ctx L n p o).1 = _
          rw [heq, hw, hkn]
        · rw [hkn]; exact hk
  | SellOriginalAsset n o p =>
    show (SellOriginalAsset ctx L n o p).1 = L ∨ _
    rw [SellOriginalAsset_update]
    exact upd n _ (fun r => ⟨rfl, rfl⟩)
  | ProcessAsset n i =>
    show (ProcessAsset ctx L n i).1 = L ∨ _
    rw [ProcessAsset_update]
    exact upd n _ (fun r => ⟨rfl, rfl⟩)
  | SellProcessedAsset n o p =>
    show (SellProcessedAsset ctx L n o p).1 = L ∨ _
    rw [SellProcessedAsset_update]
    exact upd n _ (fun r => ⟨rfl, rfl⟩)

theorem execPublic_failing (render : Int → String) (ctx : TxContext) (L : Ledger)
    (call : PublicCall) : (execPublic render ctx L call).1.failing = L.failing := by
  rcases execPublic_shape render ctx L call with h | ⟨k, a, h, -⟩ <;> rw [h]

theorem execPublic_priv (render : Int → String) (ctx : TxContext) (L : Ledger)
    (call : PublicCall) : (execPublic render ctx L call).1.priv = L.priv := by
  rcases execPublic_shape render ctx L call with h | ⟨k, a, h, -⟩ <;> rw [h]

theorem runPublic_ascending (render : Int → String) (calls : List (TxContext × PublicCall)) :
    ∀ L : Ledger, KeysAscending L.world →
      KeysAscending (runPublic render calls L).world := by
  induction calls with
  | nil => intro L h; exact h
  | cons c rest ih =>
    intro L h
    obtain ⟨ctx, call⟩ := c
    apply ih
    rcases execPublic_shape render ctx L call with h1 | ⟨k, a, h1, -⟩
    · rw [h1]; exact h
    · rw [h1]; exact kvPut_ascending L.world k _ h

theorem runPrivate_ascending (hashOf : String → String)
    (calls : List (TxContext × PrivateCall)) :
    ∀ L : Ledger, KeysAscending L.priv →
      KeysAscending (runPrivate hashOf calls L).priv := by
  induction calls with
  | nil => intro L h; exact h
  | cons c rest ih =>
    intro L h
    obtain ⟨ctx, call⟩ := c
    apply ih
    cases call with
    | PrivateDeal =>
      rcases PrivateDeal_cases ctx L with h1 | ⟨k, v, -, h1⟩
      · show KeysAscending (PrivateDeal ctx L).1.priv
        rw [h1]; exact h
      · show KeysAscending (PrivateDeal ctx L).1.priv
        rw [h1]; exact kvPut_ascending L.priv k v h
    | ReadAssetPrivate n => exact h
    | GetAllPrivateAssets => exact h
    | GetPrivateAssetHash n => exact h

theorem collectAssets_ok (L : Ledger)
    (hnext : ∀ i, faultOf L.failing (ReadCall.stateNext i) = none)
    (entries : List (Key × String))
    (hdec : ∀ e ∈ entries, ∃ a, unmarshalAsset e.2 = Except.ok a ∧
      ReadAsset L e.1.val = Except.ok a) : ∀ i : Nat,
    ∃ assets, collectAssets L i entries = Except.ok assets ∧
      List.Forall₂ (fun e a => ReadAsset L e.1.val = Except.ok a) entries assets := by
  induction entries with
  | nil => intro i; exact ⟨[], rfl, List.Forall₂.nil⟩
  | cons x rest ih =>
    intro i
    obtain ⟨a, ha, hr⟩ := hdec x (List.mem_cons_self _ _)
    obtain ⟨assets, hc, hall⟩ := ih (fun e he => hdec e (List.mem_cons_of_mem _ he)) (i + 1)
    obtain ⟨k, v⟩ := x
    refine ⟨a :: assets, ?_, List.Forall₂.cons hr hall⟩
    simp only [collectAssets, hnext i]
    simp only at ha
    rw [ha]
    simp only [hc]

theorem collectPrivateAssets_ok (L : Ledger)
    (hnext : ∀ i, faultOf L.failing (ReadCall.privateNext i) = none)
    (entries : List (Key × String))
    (hdec : ∀ e ∈ entries, ∃ a, unmarshalPrivateAsset e.2 = Except.ok a ∧
      ReadAssetPrivate L e.1.val = Except.ok a) : ∀ i : Nat,
    ∃ assets, collectPrivateAssets L i entries = Except.ok assets ∧
      List.Forall₂ (fun e a => ReadAssetPrivate L e.1.val = Except.ok a) entries assets := by
  induction entries with
  | nil => intro i; exact ⟨[], rfl, List.Forall₂.nil⟩
  | cons x rest ih =>
    intro i
    obtain ⟨a, ha, hr⟩ := hdec x (List.mem_cons_self _ _)
    obtain ⟨assets, hc, hall⟩ := ih (fun e he => hdec e (List.mem_cons_of_mem _ he)) (i + 1)
    obtain ⟨k, v⟩ := x
    refine ⟨a :: assets, ?_, List.Forall₂.cons hr hall⟩
    simp only [collectPrivateAssets, hnext i]
    simp only at ha
    rw [ha]
    simp only [hc]

/-- One call of the public contract keeps this property of the world state:
every value decodes to a record named as its key. -/
theorem execPublic_named (render : Int → String) (ctx : TxContext) (L : Ledger)
    (call : PublicCall)
    (h : ∀ e ∈ L.world, ∃ a, unmarshalAsset e.2 = Except.ok a ∧ a.AssetName = e.1.val) :
    ∀ e ∈ (execPublic render ctx L call).1.world,
      ∃ a, unmarshalAsset e.2 = Except.ok a ∧ a.AssetName = e.1.val := by
  rcases execPublic_shape render ctx L call with h1 | ⟨k, a, h1, hcase⟩
  · rw [h1]; exact h
  · rw [h1]
    intro e he
    rcases mem_kvPut L.world k (marshalAsset a) e he with h2 | h2
    · rw [h2]
      refine ⟨a, unmarshalAsset_marshalAsset a, ?_⟩
      rcases hcase with ⟨-, hn⟩ | ⟨bytes, r, hk, hd, hn, -⟩
      · exact hn
      · obtain ⟨x, hx, hx1, hx2⟩ := kvGet_mem L.world k.val bytes hk
        obtain ⟨a2, ha2, hname⟩ := h x hx
        rw [hx2, hd] at ha2
        have : r = a2 := Except.ok.inj ha2
        rw [hn, this, hname, hx1]
    · exact h e h2

theorem runPublic_named (render : Int → String) (calls : List (TxContext × PublicCall)) :
    ∀ L : Ledger,
      (∀ e ∈ L.world, ∃ a, unmarshalAsset e.2 = Except.ok a ∧ a.AssetName = e.1.val) →
      ∀ e ∈ (runPublic render calls L).world,
        ∃ a, unmarshalAsset e.2 = Except.ok a ∧ a.AssetName = e.1.val := by
  induction calls with
  | nil => intro L h; exact h
  | cons c rest ih =>
    intro L h
    obtain ⟨ctx, call⟩ := c
    exact ih _ (execPublic_named render ctx L call h)

/-- One call of the public contract keeps the name and the property of the
record under a key. -/
theorem execPublic_keeps_name (render : Int → String) (ctx : TxContext) (L : Ledger)
    (call : PublicCall) (key nm pr : String)
    (h : ∃ bytes r, kvGet L.world key = some bytes ∧ unmarshalAsset bytes = Except.ok r ∧
      r.AssetName = nm ∧ r.AssetProperty = pr) :
    ∃ bytes r, kvGet (execPublic render ctx L call).1.world key = some bytes ∧
      unmarshalAsset bytes = Except.ok r ∧ r.AssetName = nm ∧ r.AssetProperty = pr := by
  rcases execPublic_shape render ctx L call with h1 | ⟨k, a, h1, hcase⟩
  · rw [h1]; exact h
  · rw [h1]
    obtain ⟨bytes, r, hk, hd, hn, hp⟩ := h
    by_cases hkey : key = k.val
    · refine ⟨marshalAsset a, a, ?_, unmarshalAsset_marshalAsset a, ?_⟩
      · rw [hkey]; exact kvGet_kvPut_same L.world k _
      · rcases hcase with ⟨hnone, -⟩ | ⟨bytes2, r2, hk2, hd2, hn2, hp2⟩
        · rw [← hkey, hk] at hnone; cases hnone
        · rw [← hkey, hk] at hk2
          have hb : bytes = bytes2 := Option.some.inj hk2
          rw [← hb, hd] at hd2
          have hr : r = r2 := Except.ok.inj hd2
          rw [hn2, hp2, ← hr]
          exact ⟨hn, hp⟩
    · refine ⟨bytes, r, ?_, hd, hn, hp⟩
      simp only [kvGet_kvPut_other L.world k _ key hkey, hk]

theorem runPublic_keeps_name (render : Int → String)
    (calls : List (TxContext × PublicCall)) (key nm pr : String) :
    ∀ L : Ledger,
      (∃ bytes r, kvGet L.world key = some bytes ∧ unmarshalAsset bytes = Except.ok r ∧
        r.AssetName = nm ∧ r.AssetProperty = pr) →
      ∃ bytes r, kvGet (runPublic render calls L).world key = some bytes ∧
        unmarshalAsset bytes = Except.ok r ∧ r.AssetName = nm ∧ r.AssetProperty = pr := by
  induction calls with
  | nil => intro L h; exact h
  | cons c rest ih =>
    intro L h
    obtain ⟨ctx, call⟩ := c
    exact ih _ (execPublic_keeps_name render ctx L call key nm pr h)

/-- C19: key and name agree in the public ledger. In every store reached
from a store with an empty world state by calls of the public contract,
every stored value decodes to an `Asset` whose `AssetName` is the key it is
stored under; and along every sequence of calls, from any store, the record
under a key keeps its `AssetName` and its `AssetProperty`. -/
theorem C19_key_name_agreement (render : Int → String)
    (calls : List (TxContext × PublicCall)) (L0 : Ledger) (hempty : L0.world = []) :
    (∀ e ∈ (runPublic render calls L0).world,
      ∃ a, unmarshalAsset e.2 = Except.ok a ∧ a.AssetName = e.1.val) ∧
    (∀ (L : Ledger) (key bytes : String) (r : Asset),
      kvGet L.world key = some bytes → unmarshalAsset bytes = Except.ok r →
      ∃ bytes2 r2, kvGet (runPublic render calls L).world key = some bytes2 ∧
        unmarshalAsset bytes2 = Except.ok r2 ∧ r2.AssetName = r.AssetName ∧
        r2.AssetProperty = r.AssetProperty) := by
  constructor
  · apply runPublic_named render calls L0
    intro e he
    rw [hempty] at he
    cases he
  · intro L key bytes r hk hd
    exact runPublic_keeps_name render calls key r.AssetName r.AssetProperty L
      ⟨bytes, r, hk, hd, rfl, rfl⟩

set_option maxRecDepth 100000 in
/-- C19 at a concrete run: after creating "A1", selling it and a refused
second creation, the value under "A1" decodes to a record named "A1". -/
theorem C19_key_name_agreement_witness :
    ∃ a, unmarshalAsset
        (marshalAsset
          { AssetName := "A1", AssetProperty := "apple", Owner := "B",
            AssetProcessInfo := "", AssetOriginalPrice := int100,
            AssetProcessPrice := GoInt.zero }) = Except.ok a ∧
      a.AssetName = "A1" :=
  (C19_key_name_agreement (fun _ => "")
    [(plainTx, PublicCall.CreateAsset "A1" "apple" "farm"),
     (laterTx, PublicCall.SellOriginalAsset "A1" "B" int100),
     (lastTx, PublicCall.CreateAsset "A1" "pear" "shop")] emptyLedger rfl).1
    (⟨"A1", by decide⟩,
      marshalAsset
        { AssetName := "A1", AssetProperty := "apple", Owner := "B",
          AssetProcessInfo := "", AssetOriginalPrice := int100,
          AssetProcessPrice := GoInt.zero })
    (by decide)

/-- The outcomes of `PrivateDeal` in full: the store as it was, or the put of
a tagged record, named as its key and with valid fields, under a key that
had no value. -/
theorem PrivateDeal_shape (ctx : TxContext) (L : Ledger) :
    (PrivateDeal ctx L).1 = L ∨
    ∃ (k : Key) (p : PrivateAsset), kvGet L.priv k.val = none ∧
      PrivateDeal ctx L = ({ L with priv := kvPut L.priv k (marshalPrivateAsset p) }, none) ∧
      p.ObjectType = "SCPrivAsset" ∧ p.AssetName = k.val ∧ p.AssetName ≠ "" ∧
      p.AssetProperty ≠ "" ∧ p.Owner ≠ "" ∧ 0 < p.Price.val := by
  unfold PrivateDeal
  cases ctx.transient with
  | error err => exact Or.inl rfl
  | ok transMap =>
    simp only []
    cases mapGet transMap "scprivasset" with
    | none => exact Or.inl rfl
    | some payload =>
      simp only []
      cases unmarshalTransientInput payload with
      | error e => exact Or.inl rfl
      | ok input =>
        simp only []
        split_ifs with h1 h2 h3 h4
        · exact Or.inl rfl
        · exact Or.inl rfl
        · exact Or.inl rfl
        · exact Or.inl rfl
        · cases hg : GetPrivateData L input.AssetName with
          | error err => exact Or.inl rfl
          | ok o =>
            cases o with
            | some v => exact Or.inl rfl
            | none =>
              have hne : input.AssetName ≠ "" := by
                intro h0; apply h1; rw [h0]; rfl
              have hne2 : input.AssetProperty ≠ "" := by
                intro h0; apply h2; rw [h0]; rfl
              have hne3 : input.Owner ≠ "" := by
                intro h0; apply h3; rw [h0]; rfl
              refine Or.inr ⟨⟨input.AssetName, hne⟩,
                { ObjectType := "SCPrivAsset", AssetName := input.AssetName,
                  AssetProperty := input.AssetProperty, Owner := input.Owner,
                  Price := input.Price },
                (GetPrivateData_ok L _ _ hg).2, ?_, rfl, rfl, hne, hne2, hne3,
                not_le.mp h4⟩
              simp only [PutPrivateData_ne_empty L input.AssetName _ hne]
              rfl

theorem execPrivate_wellFormed (hashOf : String → String) (ctx : TxContext) (L : Ledger)
    (call : PrivateCall)
    (h : ∀ e ∈ L.priv, ∃ p, unmarshalPrivateAsset e.2 = Except.ok p ∧
      p.ObjectType = "SCPrivAsset" ∧ p.AssetName = e.1.val ∧ p.AssetName ≠ "" ∧
      p.AssetProperty ≠ "" ∧ p.Owner ≠ "" ∧ 0 < p.Price.val) :
    ∀ e ∈ (execPrivate hashOf ctx L call).1.priv,
      ∃ p, unmarshalPrivateAsset e.2 = Except.ok p ∧
        p.ObjectType = "SCPrivAsset" ∧ p.AssetName = e.1.val ∧ p.AssetName ≠ "" ∧
        p.AssetProperty ≠ "" ∧ p.Owner ≠ "" ∧ 0 < p.Price.val := by
  cases call with
  | ReadAssetPrivate n => exact h
  | GetAllPrivateAssets => exact h
  | GetPrivateAssetHash n => exact h
  | PrivateDeal =>
    show ∀ e ∈ (PrivateDeal ctx L).1.priv, _
    rcases PrivateDeal_shape ctx L with h1 | ⟨k, p, -, h1, hp⟩
    · rw [h1]; exact h
    · rw [h1]
      intro e he
      rcases mem_kvPut L.priv k (marshalPrivateAsset p) e he with h2 | h2
      · rw [h2]
        exact ⟨p, unmarshalPrivateAsset_marshalPrivateAsset p, hp⟩
      · exact h e h2

/-- C17: well-formedness of the restricted collection. In every store
reached from a store with an empty restricted collection by calls of the
private contract, every stored value decodes to a `PrivateAsset` whose
`ObjectType` is "SCPrivAsset", whose `AssetName` is the key it is stored under,
whose `AssetName`, `AssetProperty` and `Owner` are non-empty and whose `Price` is
strictly positive. -/
theorem C17_private_well_formed (hashOf : String → String)
    (calls : List (TxContext × PrivateCall)) (L0 : Ledger) (hempty : L0.priv = []) :
    ∀ e ∈ (runPrivate hashOf calls L0).priv,
      ∃ p, unmarshalPrivateAsset e.2 = Except.ok p ∧
        p.ObjectType = "SCPrivAsset" ∧ p.AssetName = e.1.val ∧ p.AssetName ≠ "" ∧
        p.AssetProperty ≠ "" ∧ p.Owner ≠ "" ∧ 0 < p.Price.val := by
  have hinit : ∀ e ∈ L0.priv, ∃ p, unmarshalPrivateAsset e.2 = Except.ok p ∧
      p.ObjectType = "SCPrivAsset" ∧ p.AssetName = e.1.val ∧ p.AssetName ≠ "" ∧
      p.AssetProperty ≠ "" ∧ p.Owner ≠ "" ∧ 0 < p.Price.val := by
    intro e he
    rw [hempty] at he
    cases he
  revert hinit
  generalize L0 = L
  clear hempty
  induction calls generalizing L with
  | nil => intro h; exact h
  | cons c rest ih =>
    intro h
    obtain ⟨ctx, call⟩ := c
    exact ih _ (execPrivate_wellFormed hashOf ctx L call h)

set_option maxRecDepth 100000 in
/-- C17 at a concrete run: after a deal, a refused deal at price 0 and a
read, the value under "P1" is a well-formed record. -/
theorem C17_private_well_formed_witness :
    ∃ p, unmarshalPrivateAsset
        (marshalPrivateAsset
          { ObjectType := "SCPrivAsset", AssetName := "P1", AssetProperty := "fresh",
            Owner := "Ann", Price := int5 }) = Except.ok p ∧
      p.ObjectType = "SCPrivAsset" ∧ p.AssetName = "P1" ∧ p.AssetName ≠ "" ∧
      p.AssetProperty ≠ "" ∧ p.Owner ≠ "" ∧ 0 < p.Price.val :=
  C17_private_well_formed (fun s => s)
    [(dealTx, PrivateCall.PrivateDeal), (freeTx, PrivateCall.PrivateDeal),
     (plainTx, PrivateCall.ReadAssetPrivate "P1")] emptyLedger rfl
    (⟨"P1", by decide⟩,
      marshalPrivateAsset
        { ObjectType := "SCPrivAsset", AssetName := "P1", AssetProperty := "fresh",
          Owner := "Ann", Price := int5 })
    (by decide)

theorem runPrivate_decodes (hashOf : String → String)
    (calls : List (TxContext × PrivateCall)) :
    ∀ L : Ledger, (∀ e ∈ L.priv, ∃ p, unmarshalPrivateAsset e.2 = Except.ok p) →
      ∀ e ∈ (runPrivate hashOf calls L).priv,
        ∃ p, unmarshalPrivateAsset e.2 = Except.ok p := by
  induction calls with
  | nil => intro L h; exact h
  | cons c rest ih =>
    intro L h
    obtain ⟨ctx, call⟩ := c
    apply ih
    cases call with
    | ReadAssetPrivate n => exact h
    | GetAllPrivateAssets => exact h
    | GetPrivateAssetHash n => exact h
    | PrivateDeal =>
      show ∀ e ∈ (PrivateDeal ctx L).1.priv, _
      rcases PrivateDeal_shape ctx L with h1 | ⟨k, p, -, h1, -⟩
      · rw [h1]; exact h
      · rw [h1]
        intro e he
        rcases mem_kvPut L.priv k (marshalPrivateAsset p) e he with h2 | h2
        · rw [h2]
          exact ⟨p, unmarshalPrivateAsset_marshalPrivateAsset p⟩
        · exact h e h2

/-- The public half of the listing: with no failing public read, ascending
keys and decodable values, `GetAllAssets` lists the world state as `ReadAsset`
reads it. Nothing is asked of the restricted collection. -/
theorem GetAllAssets_lists (L : Ledger)
    (hscan : faultOf L.failing ReadCall.getStateByRange = none)
    (hnext : ∀ i, faultOf L.failing (ReadCall.stateNext i) = none)
    (hget : ∀ key, faultOf L.failing (ReadCall.getState key) = none)
    (hpub : KeysAscending L.world)
    (hdec : ∀ e ∈ L.world, ∃ a, unmarshalAsset e.2 = Except.ok a) :
    ∃ assets, GetAllAssets L = Except.ok assets ∧
      assets.length = L.world.length ∧
      List.Forall₂ (fun e a => ReadAsset L e.1.val = Except.ok a) L.world assets := by
  have hall : ∀ e ∈ L.world, ∃ a, unmarshalAsset e.2 = Except.ok a ∧
      ReadAsset L e.1.val = Except.ok a := by
    intro e he
    obtain ⟨a, ha⟩ := hdec e he
    refine ⟨a, ha, ?_⟩
    unfold ReadAsset GetState
    simp only [hget, kvGet_of_mem L.world hpub e he, ha]
  obtain ⟨assets, hc, hf⟩ := collectAssets_ok L hnext L.world hall 0
  refine ⟨assets, ?_, hf.length_eq.symm, hf⟩
  unfold GetAllAssets GetStateByRange
  simp only [hscan, hc]

/-- The private half of the listing: with no failing private read, ascending
keys and decodable values, `GetAllPrivateAssets` lists the restricted
collection as `ReadAssetPrivate` reads it. Nothing is asked of the world
state. -/
theorem GetAllPrivateAssets_lists (L : Ledger)
    (hscan : faultOf L.failing ReadCall.getPrivateDataByRange = none)
    (hnext : ∀ i, faultOf L.failing (ReadCall.privateNext i) = none)
    (hget : ∀ key, faultOf L.failing (ReadCall.getPrivateData key) = none)
    (hpriv : KeysAscending L.priv)
    (hdecp : ∀ e ∈ L.priv, ∃ p, unmarshalPrivateAsset e.2 = Except.ok p) :
    ∃ privateassets, GetAllPrivateAssets L = Except.ok privateassets ∧
      privateassets.length = L.priv.length ∧
      List.Forall₂ (fun e p => ReadAssetPrivate L e.1.val = Except.ok p) L.priv
        privateassets := by
  have hall : ∀ e ∈ L.priv, ∃ a, unmarshalPrivateAsset e.2 = Except.ok a ∧
      ReadAssetPrivate L e.1.val = Except.ok a := by
    intro e he
    obtain ⟨a, ha⟩ := hdecp e he
    refine ⟨a, ha, ?_⟩
    unfold ReadAssetPrivate GetPrivateData
    simp only [hget, kvGet_of_mem L.priv hpriv e he, ha]
  obtain ⟨ps, hc, hf⟩ := collectPrivateAssets_ok L hnext L.priv hall 0
  refine ⟨ps, ?_, hf.length_eq.symm, hf⟩
  unfold GetAllPrivateAssets GetPrivateDataByRange
  simp only [hscan, hc]

/-- C13: on a public store whose read calls do not fail, with keys in
ascending order and every value decoding as an `Asset`, `GetAllAssets` returns
no error and one record per stored key, in the order of the keys, each equal
to what `ReadAsset` returns for its key, whatever the restricted collection
holds; `GetAllPrivateAssets` relates to `ReadAssetPrivate` in the same way over
the restricted collection, whatever the public store holds; and the calls of
the two contracts keep the keys in ascending order. -/
theorem C13_get_all (L : Ledger) :
    (faultOf L.failing ReadCall.getStateByRange = none →
      (∀ i, faultOf L.failing (ReadCall.stateNext i) = none) →
      (∀ key, faultOf L.failing (ReadCall.getState key) = none) →
      KeysAscending L.world →
      (∀ e ∈ L.world, ∃ a, unmarshalAsset e.2 = Except.ok a) →
      ∃ assets, GetAllAssets L = Except.ok assets ∧
        assets.length = L.world.length ∧
        List.Forall₂ (fun e a => ReadAsset L e.1.val = Except.ok a) L.world assets) ∧
    (faultOf L.failing ReadCall.getPrivateDataByRange = none →
      (∀ i, faultOf L.failing (ReadCall.privateNext i) = none) →
      (∀ key, faultOf L.failing (ReadCall.getPrivateData key) = none) →
      KeysAscending L.priv →
      (∀ e ∈ L.priv, ∃ p, unmarshalPrivateAsset e.2 = Except.ok p) →
      ∃ privateassets, GetAllPrivateAssets L = Except.ok privateassets ∧
        privateassets.length = L.priv.length ∧
        List.Forall₂ (fun e p => ReadAssetPrivate L e.1.val = Except.ok p) L.priv
          privateassets) ∧
    (KeysAscending L.world →
      ∀ (render : Int → String) (calls : List (TxContext × PublicCall)),
        KeysAscending (runPublic render calls L).world) ∧
    (KeysAscending L.priv →
      ∀ (hashOf : String → String) (calls : List (TxContext × PrivateCall)),
        KeysAscending (runPrivate hashOf calls L).priv) :=
  ⟨GetAllAssets_lists L, GetAllPrivateAssets_lists L,
    fun hpub render calls => runPublic_ascending render calls L hpub,
    fun hpriv hashOf calls => runPrivate_ascending hashOf calls L hpriv⟩

set_option maxRecDepth 100000 in
/-- C13 at two concrete stores. In `listedLedger` "b1" and "a1" were created
in this order while the restricted collection holds bytes that are no record
and its range scan fails: the public listing succeeds with one record per
key. In `dealtLedger` the deals "P1" and "D0" were made in this order while
the world state holds bytes that are no record and its range scan fails: the
private listing succeeds with one record per key. In each store the listing
of the other side fails. -/
theorem C13_get_all_witness :
    (∃ assets, GetAllAssets listedLedger = Except.ok assets ∧
      assets.length = listedLedger.world.length ∧
      List.Forall₂ (fun e a => ReadAsset listedLedger e.1.val = Except.ok a)
        listedLedger.world assets) ∧
    (∃ privateassets, GetAllPrivateAssets dealtLedger = Except.ok privateassets ∧
      privateassets.length = dealtLedger.priv.length ∧
      List.Forall₂ (fun e p => ReadAssetPrivate dealtLedger e.1.val = Except.ok p)
        dealtLedger.priv privateassets) ∧
    GetAllPrivateAssets listedLedger = Except.error (ChainError.stub "unavailable") ∧
    GetAllAssets dealtLedger = Except.error (ChainError.stub "unavailable") :=
  ⟨(C13_get_all listedLedger).1 rfl (fun _ => rfl) (fun _ => rfl)
      (runPublic_ascending (fun _ => "")
        [(plainTx, PublicCall.CreateAsset "b1" "pear" "farm"),
         (laterTx, PublicCall.CreateAsset "a1" "apple" "farm")] brokenPrivateLedger
        List.Pairwise.nil)
      (fun e he =>
        Exists.imp (fun _ h => h.1)
          (runPublic_named (fun _ => "")
            [(plainTx, PublicCall.CreateAsset "b1" "pear" "farm"),
             (laterTx, PublicCall.CreateAsset "a1" "apple" "farm")] brokenPrivateLedger
            (fun x hx => absurd hx (List.not_mem_nil x)) e he)),
   (C13_get_all dealtLedger).2.1 rfl (fun _ => rfl) (fun _ => rfl)
      (runPrivate_ascending (fun s => s)
        [(dealTx, PrivateCall.PrivateDeal), (earlyDealTx, PrivateCall.PrivateDeal)]
        brokenPublicLedger List.Pairwise.nil)
      (runPrivate_decodes (fun s => s)
        [(dealTx, PrivateCall.PrivateDeal), (earlyDealTx, PrivateCall.PrivateDeal)]
        brokenPublicLedger (fun x hx => absurd hx (List.not_mem_nil x))),
   by decide, by decide⟩

theorem writeAsset_frame (ctx : TxContext) (L : Ledger) (name : String) (a : Asset)
    (other : String) (h : other ≠ name) :
    kvGet (writeAsset ctx L name a).1.world other = kvGet L.world other := by
  rcases writeAsset_cases ctx L name a with ⟨e, he⟩ | ⟨k, hk, hw⟩
  · rw [he]
  · rw [hw]
    exact kvGet_kvPut_other L.world k _ other (by rw [hk]; exact h)

theorem CreateAsset_frame (ctx : TxContext) (L : Ledger) (n p o other : String)
    (h : other ≠ n) :
    kvGet (CreateAsset ctx L n p o).1.world other = kvGet L.world other := by
  rcases CreateAsset_shape ctx L n p o with ⟨e, he⟩ | ⟨-, heq⟩
  · rw [he]
  · rw [heq]; exact writeAsset_frame ctx L n _ other h

theorem updateAsset_frame (ctx : TxContext) (L : Ledger) (n : String) (f : Asset → Asset)
    (other : String) (h : other ≠ n) :
    kvGet (updateAsset ctx L n f).1.world other = kvGet L.world other := by
  rcases update_shape ctx L n f with ⟨e, he⟩ | ⟨bytes, r, -, -, heq⟩
  · rw [he]
  · rw [heq]; exact writeAsset_frame ctx L n _ other h

theorem PrivateDeal_frame (ctx : TxContext) (L : Ledger)
    (transMap : List (String × String)) (payload : String)
    (input : scassetTransientInput)
    (ht : ctx.transient = Except.ok transMap)
    (hp : mapGet transMap "scprivasset" = some payload)
    (hd : unmarshalTransientInput payload = Except.ok input)
    (other : String) (h : other ≠ input.AssetName) :
    kvGet (PrivateDeal ctx L).1.priv other = kvGet L.priv other := by
  rw [PrivateDeal_decoded ctx L transMap payload input ht hp hd]
  split_ifs with h1 h2 h3 h4
  · rfl
  · rfl
  · rfl
  · rfl
  · cases hg : GetPrivateData L input.AssetName with
    | error err => rfl
    | ok o =>
      cases o with
      | some v => rfl
      | none =>
        have hne : input.AssetName ≠ "" := by
          intro h0; apply h1; rw [h0]; rfl
        simp only [PutPrivateData_ne_empty L input.AssetName _ hne]
        exact kvGet_kvPut_other L.priv ⟨input.AssetName, hne⟩ _ other h

theorem PrivateDeal_public (ctx : TxContext) (L : Ledger) :
    (PrivateDeal ctx L).1.world = L.world ∧ (PrivateDeal ctx L).1.history = L.history := by
  rcases PrivateDeal_cases ctx L with h | ⟨k, v, -, h⟩ <;> rw [h] <;> exact ⟨rfl, rfl⟩

/-- C20: store frame. Each writer of the public contract leaves the value
under every key other than its name argument, and the whole restricted
collection, as they were; `PrivateDeal` leaves the value under every key
other than the name of its payload, and the public world state and change
log, as they were; and the calls that only read (`AssetExists`, `ReadAsset`,
`GetAllAssets`, `GetHistory`, `ReadAssetPrivate`, `GetAllPrivateAssets`,
`GetPrivateAssetHash`) leave the whole store as it was, whatever they return. -/
theorem C20_store_frame (render : Int → String) (hashOf : String → String)
    (ctx : TxContext) (L : Ledger) :
    (∀ n p o other : String, other ≠ n →
      kvGet (CreateAsset ctx L n p o).1.world other = kvGet L.world other) ∧
    (∀ (n o : String) (p : GoInt) (other : String), other ≠ n →
      kvGet (SellOriginalAsset ctx L n o p).1.world other = kvGet L.world other) ∧
    (∀ n i other : String, other ≠ n →
      kvGet (ProcessAsset ctx L n i).1.world other = kvGet L.world other) ∧
    (∀ (n o : String) (p : GoInt) (other : String), other ≠ n →
      kvGet (SellProcessedAsset ctx L n o p).1.world other = kvGet L.world other) ∧
    (∀ call : PublicCall, (execPublic render ctx L call).1.priv = L.priv) ∧
    (∀ (transMap : List (String × String)) (payload : String)
        (input : scassetTransientInput),
      ctx.transient = Except.ok transMap →
      mapGet transMap "scprivasset" = some payload →
      unmarshalTransientInput payload = Except.ok input →
      ∀ other : String, other ≠ input.AssetName →
        kvGet (PrivateDeal ctx L).1.priv other = kvGet L.priv other) ∧
    ((PrivateDeal ctx L).1.world = L.world ∧ (PrivateDeal ctx L).1.history = L.history) ∧
    (∀ n, (execPublic render ctx L (PublicCall.AssetExists n)).1 = L) ∧
    (∀ n, (execPublic render ctx L (PublicCall.ReadAsset n)).1 = L) ∧
    (execPublic render ctx L PublicCall.GetAllAssets).1 = L ∧
    (∀ n, (execPublic render ctx L (PublicCall.GetHistory n)).1 = L) ∧
    (∀ n, (execPrivate hashOf ctx L (PrivateCall.ReadAssetPrivate n)).1 = L) ∧
    (execPrivate hashOf ctx L PrivateCall.GetAllPrivateAssets).1 = L ∧
    (∀ n, (execPrivate hashOf ctx L (PrivateCall.GetPrivateAssetHash n)).1 = L) := by
  refine ⟨fun n p o other h => CreateAsset_frame ctx L n p o other h, ?_, ?_, ?_,
    fun call => execPublic_priv render ctx L call,
    fun transMap payload input ht hp hd other h =>
      PrivateDeal_frame ctx L transMap payload input ht hp hd other h,
    PrivateDeal_public ctx L, fun _ => rfl, fun _ => rfl, rfl, fun _ => rfl,
    fun _ => rfl, rfl, fun _ => rfl⟩
  · intro n o p other h
    rw [SellOriginalAsset_update]
    exact updateAsset_frame ctx L n _ other h
  · intro n i other h
    rw [ProcessAsset_update]
    exact updateAsset_frame ctx L n _ other h
  · intro n o p other h
    rw [SellProcessedAsset_update]
    exact updateAsset_frame ctx L n _ other h

set_option maxRecDepth 100000 in
/-- C20 at a concrete store: creating "a1" leaves the value under "b1" as it
was. -/
theorem C20_store_frame_witness :
    kvGet
      (CreateAsset laterTx (CreateAsset plainTx emptyLedger "b1" "pear" "farm").1
        "a1" "apple" "farm").1.world "b1" =
      kvGet (CreateAsset plainTx emptyLedger "b1" "pear" "farm").1.world "b1" :=
  (C20_store_frame (fun _ => "") (fun s => s) laterTx
    (CreateAsset plainTx emptyLedger "b1" "pear" "farm").1).1
    "a1" "apple" "farm" "b1" (by decide)

end SupplyChain
